import Mathlib

/-!
Verification of the OpenAPI-to-MCP tool translation layer.

This file gives a shallow embedding, in Lean, of the translation-and-dispatch
core of the repository: the tool-name derivation and sanitization, the
schema-to-validator mapping (`resolveSchemaRef`, `getZodSchemaForParameter`),
the placeholder substitution, the request building (path substitution,
headers, body) and the per-invocation dispatcher with its error capture.

Modelling conventions:
* JavaScript objects that are used as string-keyed records are modelled as
  association lists `List (String × α)` together with `objInsert` /
  `objDelete`, which reproduce JavaScript's insert-or-overwrite-in-place
  key semantics.
* JavaScript strings are modelled as Lean `String` / `List Char`; one `Char`
  stands for one UTF-16 code unit (every string the claims exercise is in the
  basic multilingual plane, where the two notions agree).
* JavaScript numbers appearing in this API surface are integers (the schemas
  use `integer` and integral ids), so number values are modelled as `Int`.
  The `z.number().int()` integrality refinement is consequently vacuous in
  the model; no claim depends on it.
* Effects (the HTTP fetch, `crypto.randomUUID()`, `new Date()`) are passed in
  as explicit inputs of the dispatcher; the external platform functions
  themselves are modelled from their documented behaviour where a claim
  mentions them.
-/

/-! ## Basic helpers: JS-style records and strings -/
/-- Left brace character, written by code point to keep string literals clean. -/
def lb : Char := Char.ofNat 123

/-- Right brace character. -/
def rb : Char := Char.ofNat 125

/-- JavaScript truthiness of an optional string: present and non-empty. -/
def strTruthy : Option String → Bool
  | none => false
  | some s => s ≠ ""

/-- Lookup in a JS-object modelled as an association list (first match). -/
def lookupVal (k : String) : List (String × α) → Option α
  | [] => none
  | (k2, v) :: rest => if k2 = k then some v else lookupVal k rest

/-- JS-object property write `o[k] = v`: overwrite in place when the key is
present, append otherwise. -/
def objInsert (k : String) (v : α) (o : List (String × α)) : List (String × α) :=
  if o.any (fun e => e.1 = k) then
    o.map (fun e => if e.1 = k then (k, v) else e)
  else o ++ [(k, v)]

/-- JS `delete o[k]`: remove the key, preserving the order of the others. -/
def objDelete (k : String) (o : List (String × α)) : List (String × α) :=
  o.filter (fun e => e.1 ≠ k)

/-- Keys of a JS-object. -/
def objKeys (o : List (String × α)) : List String := o.map Prod.fst

/-! ## JS values -/
/-- Runtime value of a tool argument (string, number or boolean).  Numbers
are modelled as integers, see the header comment. -/
inductive JsValue where
  | vStr (s : String)
  | vNum (n : Int)
  | vBool (b : Bool)
deriving DecidableEq, Repr

/-- JavaScript `String(value)` coercion for the values above. -/
def jsString : JsValue → String
  | .vStr s => s
  | .vNum n => toString n
  | .vBool b => cond b "true" "false"

/-! ## String utilities of the dispatcher

`containsSub` models JavaScript `String.prototype.includes`,
`replaceFirstL` models `String.prototype.replace` with a plain-string
pattern (which replaces only the first occurrence; on an empty pattern it
replaces at position 0, and our patterns are never empty). -/
def containsSub : List Char → List Char → Bool
  | [], pat => pat.isEmpty
  | s@(_ :: rest), pat => pat.isPrefixOf s || containsSub rest pat

def replaceFirstL : List Char → List Char → List Char → List Char
  | [], _, _ => []
  | s@(c :: rest), pat, rep =>
    if pat.isPrefixOf s then rep ++ s.drop pat.length
    else c :: replaceFirstL rest pat rep

/-- JS `s.includes(pat)` on strings. -/
def strContains (s pat : String) : Bool := containsSub s.toList pat.toList

/-- JS `s.startsWith(pre)` (structural form of `String.startsWith`). -/
def strStartsWith (s pre : String) : Bool := pre.toList.isPrefixOf s.toList

/-- ASCII uppercase of one character (models `toUpperCase` on the ASCII
method names this code handles). -/
def charUpperAscii (c : Char) : Char :=
  if 'a' ≤ c && c ≤ 'z' then Char.ofNat (c.toNat - 32) else c

/-- JS `s.toUpperCase()` for ASCII strings. -/
def jsToUpperCase (s : String) : String :=
  String.mk (s.toList.map charUpperAscii)

/-- Split a character list on a separator character (JS `s.split(sep)`). -/
def splitOnSep (sep : Char) : List Char → List (List Char)
  | [] => [[]]
  | c :: rest =>
    if c = sep then [] :: splitOnSep sep rest
    else
      match splitOnSep sep rest with
      | g :: gs => (c :: g) :: gs
      | [] => [[c]]

/-- Join strings with a separator (JS `Array.prototype.join`). -/
def joinSep (sep : String) : List String → String
  | [] => ""
  | [x] => x
  | x :: y :: xs => x ++ sep ++ joinSep sep (y :: xs)

/-- Characters `encodeURIComponent` leaves unescaped:
`A-Z a-z 0-9 - _ . ! ~ * ' ( )`. -/
def isUriUnreserved (c : Char) : Bool :=
  ('a' ≤ c && c ≤ 'z') || ('A' ≤ c && c ≤ 'Z') || ('0' ≤ c && c ≤ '9') ||
  c = '-' || c = '_' || c = '.' || c = '!' || c = '~' || c = '*' ||
  c = Char.ofNat 39 || c = '(' || c = ')'

/-- UTF-8 bytes of a character (standard 1-4 byte encoding). -/
def utf8Bytes (c : Char) : List Nat :=
  let n := c.toNat
  if n < 128 then [n]
  else if n < 2048 then [192 + n / 64, 128 + n % 64]
  else if n < 65536 then [224 + n / 4096, 128 + n / 64 % 64, 128 + n % 64]
  else [240 + n / 262144, 128 + n / 4096 % 64, 128 + n / 64 % 64, 128 + n % 64]

/-- Uppercase hexadecimal digit for a nibble. -/
def hexUpper (n : Nat) : Char :=
  if n < 10 then Nat.digitChar n else Char.ofNat (55 + n)

/-- Percent-escape of one character (the nibble extraction is mod-reduced,
which is the identity on the byte values `utf8Bytes` produces). -/
def pctEncodeChar (c : Char) : List Char :=
  (utf8Bytes c).foldr
    (fun b acc => '%' :: hexUpper (b / 16 % 16) :: hexUpper (b % 16) :: acc) []

/-- JS `encodeURIComponent`. -/
def encodeURIComponent (s : String) : String :=
  String.mk (s.toList.foldr
    (fun c acc => (if isUriUnreserved c then [c] else pctEncodeChar c) ++ acc) [])

/-! ## Tool-name derivation

Two derivations coexist in the repository:
* the swagger-client variant derives `operationId || tag + "_" + opId` and
  then sanitizes it (replace every character outside `[A-Za-z0-9_-]` by `_`,
  truncate to 64 code units);
* the v3 OpenAPI variant uses `operation.operationId` verbatim and only
  mangles the `method + path` fallback.
-/
/-- Character class `[A-Za-z0-9_-]` of the sanitizer's regex. -/
def isNameChar (c : Char) : Bool :=
  ('a' ≤ c && c ≤ 'z') || ('A' ≤ c && c ≤ 'Z') || ('0' ≤ c && c ≤ '9') ||
    c = '_' || c = '-'

/-- One step of `replace(/[^a-zA-Z0-9_-]/g, "_")`. -/
def sanitizeChar (c : Char) : Char :=
  if isNameChar c then c else '_'

/-- Sanitizer of the swagger-client variant:
`toolName.replace(/[^a-zA-Z0-9_-]/g, "_").substring(0, 64)`. -/
def sanitizeToolName (s : String) : String :=
  String.mk ((s.toList.map sanitizeChar).take 64)

/-- Tool-name derivation of the swagger-client variant:
`operation.operationId || tagName + "_" + opId`, then sanitize. -/
def deriveToolNameV1 (operationId : Option String) (tagName opId : String) : String :=
  sanitizeToolName
    (if strTruthy operationId then operationId.getD "" else tagName ++ "_" ++ opId)

/-- Fallback mangling of the v3 variant: `path.replace(/[/{}/]/g, "_")`
(slashes and braces become underscores). -/
def pathMangle (p : String) : String :=
  String.mk (p.toList.map (fun c => if c = '/' || c = lb || c = rb then '_' else c))

/-- Tool-name derivation of the v3 variant (`createToolFromEndpoint`):
`operation.operationId || method + path.replace(/[/{}/]/g, "_")` — note that
the explicit identifier is used verbatim, with no sanitization. -/
def toolNameOf (operationId : Option String) (method path : String) : String :=
  if strTruthy operationId then operationId.getD "" else method ++ pathMangle path

/-! ## Registry model -/
/-- Payload registered for one tool: its input schema placeholder and the
bound operation location.  The invocation closure itself is determined by
these data, so they are enough to distinguish two registrations. -/
structure ToolDef where
  path : String
  method : String
deriving DecidableEq, Repr

/-- Modelled from the spec: the `ToolRegistry` (`McpServer.tool` of the
external MCP SDK, whose implementation is not part of this repository's
sources) keyed by tool name.  Per the spec, `register` "inserts or overwrites
an entry keyed by name". -/
def registerTool (reg : List (String × ToolDef)) (name : String) (d : ToolDef) :
    List (String × ToolDef) :=
  objInsert name d reg

/-! ## Placeholder sentinels and string-format checkers

The two sentinel literals are part of the public contract.  The checkers
below model the string validators the code builds with zod:
`z.string().uuid()`, `z.string().datetime(\x7b offset: true \x7d)` and the two
explicit regexes for `date` and `time`.  They are written as end-anchored
positional scanners over the character list.
-/
/-- GUID placeholder sentinel literal. -/
def guidSentinel : String := "\x7b\x7b$guid\x7d\x7d"

/-- Datetime placeholder sentinel literal. -/
def datetimeSentinel : String := "\x7b\x7b$datetime iso8601\x7d\x7d"

/-- Hexadecimal digit (either case). -/
def isHexChar (c : Char) : Bool :=
  ('0' ≤ c && c ≤ '9') || ('a' ≤ c && c ≤ 'f') || ('A' ≤ c && c ≤ 'F')

/-- Decimal digit. -/
def isDigitChar (c : Char) : Bool := '0' ≤ c && c ≤ '9'

/-- Consume one expected character. -/
def eatChar (c : Char) : List Char → Option (List Char)
  | [] => none
  | x :: rest => if x = c then some rest else none

/-- Consume exactly `n` characters satisfying `p`. -/
def eatPred (p : Char → Bool) : Nat → List Char → Option (List Char)
  | 0, cs => some cs
  | _ + 1, [] => none
  | n + 1, x :: rest => if p x then eatPred p n rest else none

/-- Optional fractional-seconds group `(\.\d+)?` (greedy, at least one
digit after the dot when present). -/
def eatFracOpt : List Char → Option (List Char)
  | [] => some []
  | c :: rest =>
    if c = '.' then
      if (rest.takeWhile isDigitChar).isEmpty then none
      else some (rest.dropWhile isDigitChar)
    else some (c :: rest)

/-- Timezone suffix `(Z|[+-]\d\x7b2\x7d(:?\d\x7b2\x7d)?)`. -/
def eatOffset : List Char → Option (List Char)
  | [] => none
  | c :: rest =>
    if c = 'Z' then some rest
    else if c = '+' ∨ c = '-' then
      match eatPred isDigitChar 2 rest with
      | none => none
      | some r =>
        match r with
        | ':' :: r2 => eatPred isDigitChar 2 r2
        | _ =>
          match eatPred isDigitChar 2 r with
          | some r2 => some r2
          | none => some r
    else none

/-- Syntactic UUID: `8-4-4-4-12` hexadecimal groups separated by dashes.
Models `z.string().uuid()` of the external zod library. -/
def isUuidChars (cs : List Char) : Bool :=
  match (do
    let r ← eatPred isHexChar 8 cs
    let r ← eatChar '-' r
    let r ← eatPred isHexChar 4 r
    let r ← eatChar '-' r
    let r ← eatPred isHexChar 4 r
    let r ← eatChar '-' r
    let r ← eatPred isHexChar 4 r
    let r ← eatChar '-' r
    eatPred isHexChar 12 r : Option (List Char)) with
  | some [] => true
  | _ => false

/-- String-level UUID check. -/
def isUuid (s : String) : Bool := isUuidChars s.toList

/-- Offset-qualified ISO-8601 datetime
`^\d\x7b4\x7d-\d\x7b2\x7d-\d\x7b2\x7dT\d\x7b2\x7d:\d\x7b2\x7d:\d\x7b2\x7d(\.\d+)?(Z|[+-]\d\x7b2\x7d(:?\d\x7b2\x7d)?)$`.
Models `z.string().datetime` with `offset: true` of the external zod library. -/
def isOffsetDatetimeChars (cs : List Char) : Bool :=
  match (do
    let r ← eatPred isDigitChar 4 cs
    let r ← eatChar '-' r
    let r ← eatPred isDigitChar 2 r
    let r ← eatChar '-' r
    let r ← eatPred isDigitChar 2 r
    let r ← eatChar 'T' r
    let r ← eatPred isDigitChar 2 r
    let r ← eatChar ':' r
    let r ← eatPred isDigitChar 2 r
    let r ← eatChar ':' r
    let r ← eatPred isDigitChar 2 r
    let r ← eatFracOpt r
    eatOffset r : Option (List Char)) with
  | some [] => true
  | _ => false

/-- String-level offset datetime check. -/
def isOffsetDatetime (s : String) : Bool := isOffsetDatetimeChars s.toList

/-- Date regex `^\d\x7b4\x7d-\d\x7b2\x7d-\d\x7b2\x7d$` from the source. -/
def isDateYmd (s : String) : Bool :=
  match (do
    let r ← eatPred isDigitChar 4 s.toList
    let r ← eatChar '-' r
    let r ← eatPred isDigitChar 2 r
    let r ← eatChar '-' r
    eatPred isDigitChar 2 r : Option (List Char)) with
  | some [] => true
  | _ => false

/-- Time regex `^\d\x7b2\x7d:\d\x7b2\x7d:\d\x7b2\x7d$` from the source. -/
def isTimeHms (s : String) : Bool :=
  match (do
    let r ← eatPred isDigitChar 2 s.toList
    let r ← eatChar ':' r
    let r ← eatPred isDigitChar 2 r
    let r ← eatChar ':' r
    eatPred isDigitChar 2 r : Option (List Char)) with
  | some [] => true
  | _ => false

/-! ## The zod validator model -/
/-- The zod combinators this code base constructs. -/
inductive Zod where
  | zString
  | zNumber
  | zInt
  | zBool
  | zEnum (vs : List String)
  | zStringUuid
  | zStringDatetimeOffset
  | zStringDate
  | zStringTime
  | zLiteral (s : String)
  | zUnion2 (a b : Zod)
  | zOptional (t : Zod)
  | zAny
deriving DecidableEq, Repr

/-- Acceptance of a present value by a zod validator (optionality is a
property of the object field, handled by the object parser). -/
def zodAccepts : Zod → JsValue → Bool
  | .zString, .vStr _ => true
  | .zNumber, .vNum _ => true
  | .zInt, .vNum _ => true
  | .zBool, .vBool _ => true
  | .zEnum vs, .vStr s => vs.contains s
  | .zStringUuid, .vStr s => isUuid s
  | .zStringDatetimeOffset, .vStr s => isOffsetDatetime s
  | .zStringDate, .vStr s => isDateYmd s
  | .zStringTime, .vStr s => isTimeHms s
  | .zLiteral t, .vStr s => s == t
  | .zUnion2 a b, v => zodAccepts a v || zodAccepts b v
  | .zOptional t, v => zodAccepts t v
  | .zAny, _ => true
  | _, _ => false

/-- Whether a field validator is optional. -/
def Zod.isOpt : Zod → Bool
  | .zOptional _ => true
  | _ => false

/-! ## OpenAPI document model (the shapes the code reads) -/
/-- Property schema inside a components schema (`type`, `format`, `$ref`,
`enum` are the fields the code reads). -/
structure PropSchema where
  type : Option String
  format : Option String
  refName : Option String
  enumVals : Option (List String)
deriving DecidableEq, Repr

/-- Named components schema (`type`, `required`, `properties`, `enum`). -/
structure SchemaObject where
  type : Option String
  required : Option (List String)
  properties : Option (List (String × PropSchema))
  enumVals : Option (List String)
deriving DecidableEq, Repr

/-- Embedding of `resolveSchemaRef` from the source: resolve a `$ref` to a
named schema (final path segment of the reference is the lookup key; enums
win), otherwise map the inline property's `enum` / `type` / `format` to a
zod validator.  A missing referenced schema surfaces as the thrown
`TypeError` of the source (`referencedSchema.enum` on `undefined`). -/
def resolveSchemaRef (ref : Option String) (prop : PropSchema)
    (schemas : List (String × SchemaObject)) : Except String Zod :=
  let rest : Except String Zod :=
    if prop.enumVals.isSome then .ok (.zEnum (prop.enumVals.getD []))
    else if prop.type = some "integer" then .ok .zInt
    else if prop.type = some "string" then
      if prop.format = some "uuid" then
        .ok (.zUnion2 .zStringUuid (.zLiteral guidSentinel))
      else if prop.format = some "date-time" ∨ prop.format = some "datetime" then
        .ok (.zUnion2 .zStringDatetimeOffset (.zLiteral datetimeSentinel))
      else if prop.format = some "date" then .ok .zStringDate
      else if prop.format = some "time" then .ok .zStringTime
      else .ok .zString
    else if prop.type = some "number" then .ok .zNumber
    else if prop.type = some "boolean" then .ok .zBool
    else .ok .zString
  if strTruthy ref then
    let refPath := (splitOnSep '/' (ref.getD "").toList).drop 1
    let schemaName := String.mk (refPath.getLastD [])
    match lookupVal schemaName schemas with
    | none => .error "Cannot read properties of undefined (reading 'enum')"
    | some referencedSchema =>
      if referencedSchema.enumVals.isSome then
        .ok (.zEnum (referencedSchema.enumVals.getD []))
      else rest
  else rest

/-! ## Digit renderings and the modelled platform generators -/
/-- Big-endian decimal rendering of `n` on exactly `len` digits
(low digits win on overflow, as zero-padded clock fields never overflow). -/
def decBE : Nat → Nat → List Char
  | _, 0 => []
  | n, len + 1 => decBE (n / 10) len ++ [Nat.digitChar (n % 10)]

/-- Hexadecimal rendering of `n` on exactly `len` nibbles (low nibble
first; the nibble order within a group is a modelling choice for the
random generator below). -/
def hexLE : Nat → Nat → List Char
  | _, 0 => []
  | n, len + 1 => Nat.digitChar (n % 16) :: hexLE (n / 16) len

/-- Number of distinct values the modelled UUID generator can produce:
30 free nibbles and 2 variant bits. -/
def uuidEntropyBound : Nat := 4 * 16 ^ 30

/-- Modelled from the platform Web Crypto API: `crypto.randomUUID()`
returns a version-4 RFC-4122 UUID built from 122 random bits.  The model
takes the entropy `e` as an explicit input and lays it out over the
`8-4-4-4-12` hex groups; the third group's high nibble is the constant
version `4`, the fourth group's high nibble is the variant `8 + 2 bits`. -/
def randomUUIDChars (e : Nat) : List Char :=
  hexLE (e % 16 ^ 8) 8 ++ ('-' ::
  (hexLE (e / 16 ^ 8 % 16 ^ 4) 4 ++ ('-' ::
  (hexLE (e / 16 ^ 12 % 16 ^ 3 + 4 * 16 ^ 3) 4 ++ ('-' ::
  (hexLE (e / 16 ^ 15 % 16 ^ 3 + (8 + e / 16 ^ 30 % 4) * 16 ^ 3) 4 ++ ('-' ::
  hexLE (e / 16 ^ 18 % 16 ^ 12) 12)))))))

/-- String form of the modelled `crypto.randomUUID()`. -/
def randomUUID (e : Nat) : String := String.mk (randomUUIDChars e)

/-- Clock reading, split into the fields `Date.prototype.toISOString`
renders. -/
structure DateParts where
  year : Nat
  month : Nat
  day : Nat
  hour : Nat
  minute : Nat
  second : Nat
  ms : Nat
deriving DecidableEq, Repr

/-- Modelled from the platform: `new Date().toISOString()` renders the
current instant as `YYYY-MM-DDTHH:mm:ss.sssZ` (UTC, `Z`-qualified). -/
def toISOString (t : DateParts) : String :=
  String.mk (decBE t.year 4 ++ ('-' ::
    (decBE t.month 2 ++ ('-' ::
    (decBE t.day 2 ++ ('T' ::
    (decBE t.hour 2 ++ (':' ::
    (decBE t.minute 2 ++ (':' ::
    (decBE t.second 2 ++ ('.' ::
    (decBE t.ms 3 ++ ['Z'])))))))))))))

/-! ## Placeholder substitution and object validation -/
/-- Embedding of the pre-validation placeholder pass of the dispatcher:
any string argument equal to a sentinel is replaced by the corresponding
live value (`crypto.randomUUID()` / `new Date().toISOString()`), supplied
here as the explicit inputs `freshUuid` / `nowIso`. -/
def processPlaceholders (freshUuid nowIso : String)
    (args : List (String × JsValue)) : List (String × JsValue) :=
  args.map (fun kv =>
    match kv.2 with
    | .vStr s =>
      if s = guidSentinel then (kv.1, .vStr freshUuid)
      else if s = datetimeSentinel then (kv.1, .vStr nowIso)
      else kv
    | _ => kv)

/-- Embedding of `z.object(paramSchema).parse(processedParams)`: fields are
checked in shape order; a present value must satisfy its validator, a
missing one must be optional; unknown argument keys are stripped.  The
error payload stands for the thrown ZodError's message, whose exact text
no claim depends on. -/
def zodParseObject (schema : List (String × Zod))
    (args : List (String × JsValue)) :
    Except String (List (String × JsValue)) :=
  match schema with
  | [] => .ok []
  | (k, z) :: rest =>
    match lookupVal k args with
    | some v =>
      if zodAccepts z v then
        match zodParseObject rest args with
        | .ok out => .ok ((k, v) :: out)
        | .error e => .error e
      else .error ("invalid value for " ++ k)
    | none =>
      if z.isOpt then zodParseObject rest args
      else .error ("required field missing: " ++ k)

/-! ## Operation model and the tool input schema -/
/-- A declared operation parameter (`name`, `in`, `required`,
`schema.type`, `schema.format`). -/
structure Param where
  name : String
  loc : String
  required : Bool
  schemaType : String
  schemaFormat : Option String
deriving DecidableEq, Repr

/-- Truthiness of `responses["200"].content?.["application/json"]`. -/
structure ResponseObject where
  jsonContent : Bool
deriving DecidableEq, Repr

/-- The request body declaration; `schemaRef` is
`content?.["application/json"]?.schema?.$ref` when the whole optional
chain is present. -/
structure RequestBodySpec where
  schemaRef : Option String
deriving DecidableEq, Repr

/-- One OpenAPI operation as `createToolFromEndpoint` reads it. -/
structure Operation where
  operationId : Option String
  parameters : List Param
  requestBody : Option RequestBodySpec
  responses : List (String × ResponseObject)
deriving DecidableEq, Repr

/-- Embedding of `getZodSchemaForParameter`: integer and number get numeric
validators, everything else a string validator; optional unless required. -/
def getZodSchemaForParameter (p : Param) : Zod :=
  let schema := if p.schemaType = "integer" then Zod.zInt
    else if p.schemaType = "number" then Zod.zNumber
    else Zod.zString
  if p.required then schema else .zOptional schema

/-- Embedding of the schema-building pass of `createToolFromEndpoint`:
path-location parameters contribute validators; if the request body
declares a `$ref` JSON schema, the referenced schema's properties are
added (required ones non-optional).  A missing referenced schema is the
thrown `TypeError` of the source. -/
def buildParamSchema (op : Operation) (schemas : List (String × SchemaObject)) :
    Except String (List (String × Zod)) :=
  let pathParams := op.parameters.foldl (fun acc p =>
    if p.loc = "path" then objInsert p.name (getZodSchemaForParameter p) acc
    else acc) []
  match op.requestBody with
  | none => .ok pathParams
  | some rb =>
    match rb.schemaRef with
    | none => .ok pathParams
    | some ref =>
      if ref = "" then .ok pathParams
      else
        let refPath := (splitOnSep '/' ref.toList).drop 1
        let schemaName := String.mk (refPath.getLastD [])
        match lookupVal schemaName schemas with
        | none => .error "Cannot read properties of undefined (reading 'properties')"
        | some referencedSchema =>
          match referencedSchema.properties with
          | none => .ok pathParams
          | some props =>
            props.foldlM (fun acc fp =>
              match resolveSchemaRef fp.2.refName fp.2 schemas with
              | .error e => .error e
              | .ok zodSchema =>
                .ok (objInsert fp.1
                  (if (referencedSchema.required.getD []).contains fp.1
                   then zodSchema else .zOptional zodSchema) acc)) pathParams

/-! ## Request building -/
/-- Embedding of the Hawksoft path-prefix correction. -/
def hawksoftFix (path : String) : String :=
  if ¬ strStartsWith path "/integrations" = true ∧ strContains path "/hawksoft/" then
    "/integrations" ++ path
  else path

/-- The literal path-template pattern for a parameter name. -/
def braceWrap (k : String) : List Char := lb :: (k.toList ++ [rb])

/-- Embedding of the path-parameter substitution loop: for every validated
argument whose `\x7bname\x7d` pattern occurs in the ORIGINAL template, replace the
first occurrence in the evolving path by the percent-encoded string form. -/
def substPathParams (origPath : List Char) (args : List (String × JsValue))
    (start : List Char) : List Char :=
  args.foldl (fun acc kv =>
    if containsSub origPath (braceWrap kv.1) then
      replaceFirstL acc (braceWrap kv.1) (encodeURIComponent (jsString kv.2)).toList
    else acc) start

/-- Embedding of the header construction: dereferences `responses["200"]`
without a guard (a missing entry is the thrown `TypeError`), sets the
content type, the accept header from the 200 response's content, the
required `X-Org-Id` header parameter, and the Hawksoft header injection. -/
def buildHeaders (op : Operation) (organizationId : String)
    (finalPath : String) : Except String (List (String × String)) :=
  match lookupVal "200" op.responses with
  | none => .error "Cannot read properties of undefined (reading 'content')"
  | some r200 =>
    let hs : List (String × String) :=
      [("Content-Type", "application/json"),
       ("Accept", if r200.jsonContent then "application/json" else "text/plain")]
    let hs := op.parameters.foldl (fun hs p =>
      if p.loc = "header" ∧ p.required ∧ p.name = "X-Org-Id" then
        objInsert p.name organizationId hs
      else hs) hs
    let hs := if strContains finalPath "/hawksoft/" then
        objInsert "X-Org-Id" organizationId hs
      else hs
    .ok hs

/-- Embedding of the `ClientNumber` body remapping: whenever the validated
arguments carry a `ClientNumber` key, its value is re-keyed to
`clientNumber` (appended, then the original key deleted). -/
def remapClientNumber (o : List (String × JsValue)) : List (String × JsValue) :=
  match lookupVal "ClientNumber" o with
  | none => o
  | some v => objDelete "ClientNumber" (objInsert "clientNumber" v o)

/-- JSON string escaping (the common escapes; rare control characters are
passed through, which no claim exercises). -/
def jsonEscapeChar (c : Char) : List Char :=
  if c = '"' then ['\\', '"']
  else if c = '\\' then ['\\', '\\']
  else if c = Char.ofNat 10 then ['\\', 'n']
  else if c = Char.ofNat 13 then ['\\', 'r']
  else if c = Char.ofNat 9 then ['\\', 't']
  else [c]

/-- A JSON-quoted string. -/
def jsonQuote (s : String) : String :=
  String.mk ('"' :: (s.toList.foldr (fun c acc => jsonEscapeChar c ++ acc) []
    ++ ['"']))

/-- Compact JSON rendering of an argument value. -/
def jsonRenderVal : JsValue → String
  | .vStr s => jsonQuote s
  | .vNum n => toString n
  | .vBool b => cond b "true" "false"

/-- `JSON.stringify` of the body-params object (compact form). -/
def jsonStringify (o : List (String × JsValue)) : String :=
  "\x7b" ++ joinSep ","
    (o.map (fun kv => jsonQuote kv.1 ++ ":" ++ jsonRenderVal kv.2)) ++ "\x7d"

/-! ## Response normalization

The source tries `JSON.parse` on the response text; arrays are rendered
element-wise (objects pretty-printed with 2-space indent, primitives
coerced by `String(..)`) joined by blank lines, objects are pretty-printed,
scalars are coerced, and unparsable text is used verbatim.  `JSON.parse`
and `JSON.stringify(v, null, 2)` are platform functions, modelled here by
a standard JSON value parser (numbers keep their source lexeme, which is
the faithful rendering for the canonical numerals the backend emits) and a
2-space pretty printer. -/
/-- Parsed JSON value; numbers keep their lexeme. -/
inductive Json where
  | jnull
  | jbool (b : Bool)
  | jnum (lexeme : String)
  | jstr (s : String)
  | jarr (items : List Json)
  | jobj (fields : List (String × Json))
deriving Repr

/-- JSON whitespace. -/
def jsWs (c : Char) : Bool :=
  c = ' ' || c = Char.ofNat 9 || c = Char.ofNat 10 || c = Char.ofNat 13

/-- Skip JSON whitespace. -/
def skipWs (cs : List Char) : List Char := cs.dropWhile jsWs

/-- Value of a hexadecimal digit character. -/
def hexVal (c : Char) : Nat :=
  if '0' ≤ c && c ≤ '9' then c.toNat - 48
  else if 'a' ≤ c && c ≤ 'f' then c.toNat - 87
  else if 'A' ≤ c && c ≤ 'F' then c.toNat - 55
  else 0

/-- Parse the body of a JSON string after the opening quote; returns the
decoded characters and the remainder after the closing quote.  Surrogate
pairs in `\u` escapes are not recombined (no claim exercises them). -/
def parseStrChars : List Char → Option (List Char × List Char)
  | [] => none
  | c :: rest =>
    if c = '"' then some ([], rest)
    else if c = '\\' then
      match rest with
      | [] => none
      | e :: rest2 =>
        if e = '"' ∨ e = '\\' ∨ e = '/' then
          match parseStrChars rest2 with
          | some (s, r) => some (e :: s, r)
          | none => none
        else if e = 'n' then
          match parseStrChars rest2 with
          | some (s, r) => some (Char.ofNat 10 :: s, r)
          | none => none
        else if e = 't' then
          match parseStrChars rest2 with
          | some (s, r) => some (Char.ofNat 9 :: s, r)
          | none => none
        else if e = 'r' then
          match parseStrChars rest2 with
          | some (s, r) => some (Char.ofNat 13 :: s, r)
          | none => none
        else if e = 'b' then
          match parseStrChars rest2 with
          | some (s, r) => some (Char.ofNat 8 :: s, r)
          | none => none
        else if e = 'f' then
          match parseStrChars rest2 with
          | some (s, r) => some (Char.ofNat 12 :: s, r)
          | none => none
        else if e = 'u' then
          match rest2 with
          | h1 :: h2 :: h3 :: h4 :: rest3 =>
            if isHexChar h1 && isHexChar h2 && isHexChar h3 && isHexChar h4 then
              match parseStrChars rest3 with
              | some (s, r) =>
                some (Char.ofNat (((hexVal h1 * 16 + hexVal h2) * 16 +
                  hexVal h3) * 16 + hexVal h4) :: s, r)
              | none => none
            else none
          | _ => none
        else none
    else
      match parseStrChars rest with
      | some (s, r) => some (c :: s, r)
      | none => none
termination_by cs => cs.length
decreasing_by all_goals simp_arith [List.length]

/-- Lex a JSON number per the JSON grammar; returns the lexeme. -/
def parseNumber (cs : List Char) : Option (String × List Char) :=
  let (sign, r1) : List Char × List Char :=
    match cs with
    | c :: r => if c = '-' then (['-'], r) else ([], cs)
    | [] => ([], cs)
  match r1 with
  | [] => none
  | d :: _ =>
    if ¬ isDigitChar d then none
    else
      let intPart := r1.takeWhile isDigitChar
      let r2 := r1.dropWhile isDigitChar
      if intPart.length > 1 ∧ intPart.headD ' ' = '0' then none
      else
        let fracRes : Option (List Char × List Char) :=
          match r2 with
          | p :: fr =>
            if p = '.' then
              let ds := fr.takeWhile isDigitChar
              if ds.isEmpty then none
              else some ('.' :: ds, fr.dropWhile isDigitChar)
            else some ([], r2)
          | [] => some ([], r2)
        match fracRes with
        | none => none
        | some (frac, r3) =>
          let expRes : Option (List Char × List Char) :=
            match r3 with
            | x :: xr =>
              if x = 'e' ∨ x = 'E' then
                let (sgn, xr2) : List Char × List Char :=
                  match xr with
                  | y :: yr => if y = '+' ∨ y = '-' then ([y], yr) else ([], xr)
                  | [] => ([], xr)
                let ds := xr2.takeWhile isDigitChar
                if ds.isEmpty then none
                else some (x :: (sgn ++ ds), xr2.dropWhile isDigitChar)
              else some ([], r3)
            | [] => some ([], r3)
          match expRes with
          | none => none
          | some (ex, r4) =>
            some (String.mk (sign ++ (intPart ++ (frac ++ ex))), r4)

mutual

/-- Fuel-indexed JSON value parser (recursive descent). -/
def parseVal : Nat → List Char → Option (Json × List Char)
  | 0, _ => none
  | fuel + 1, cs =>
    match skipWs cs with
    | [] => none
    | c :: rest =>
      if c = 'n' then
        match rest with
        | 'u' :: 'l' :: 'l' :: r => some (.jnull, r)
        | _ => none
      else if c = 't' then
        match rest with
        | 'r' :: 'u' :: 'e' :: r => some (.jbool true, r)
        | _ => none
      else if c = 'f' then
        match rest with
        | 'a' :: 'l' :: 's' :: 'e' :: r => some (.jbool false, r)
        | _ => none
      else if c = '"' then
        match parseStrChars rest with
        | some (s, r) => some (.jstr (String.mk s), r)
        | none => none
      else if c = '[' then
        match skipWs rest with
        | c2 :: r2 =>
          if c2 = ']' then some (.jarr [], r2)
          else
            match parseItems fuel (c2 :: r2) with
            | some (vs, r3) => some (.jarr vs, r3)
            | none => none
        | [] => none
      else if c = lb then
        match skipWs rest with
        | c2 :: r2 =>
          if c2 = rb then some (.jobj [], r2)
          else
            match parseFields fuel (c2 :: r2) with
            | some (fs, r3) => some (.jobj fs, r3)
            | none => none
        | [] => none
      else
        match parseNumber (c :: rest) with
        | some (lex, r) => some (.jnum lex, r)
        | none => none

/-- Array elements: value (`,` value)* `]`. -/
def parseItems : Nat → List Char → Option (List Json × List Char)
  | 0, _ => none
  | fuel + 1, cs =>
    match parseVal fuel cs with
    | none => none
    | some (v, r) =>
      match skipWs r with
      | c :: r2 =>
        if c = ',' then
          match parseItems fuel r2 with
          | some (vs, r3) => some (v :: vs, r3)
          | none => none
        else if c = ']' then some ([v], r2)
        else none
      | [] => none

/-- Object members: string `:` value (`,` string `:` value)* closing brace. -/
def parseFields : Nat → List Char → Option (List (String × Json) × List Char)
  | 0, _ => none
  | fuel + 1, cs =>
    match skipWs cs with
    | c :: r =>
      if c = '"' then
        match parseStrChars r with
        | some (k, r2) =>
          match skipWs r2 with
          | c2 :: r3 =>
            if c2 = ':' then
              match parseVal fuel r3 with
              | some (v, r4) =>
                match skipWs r4 with
                | c3 :: r5 =>
                  if c3 = ',' then
                    match parseFields fuel r5 with
                    | some (fs, r6) => some ((String.mk k, v) :: fs, r6)
                    | none => none
                  else if c3 = rb then some ([(String.mk k, v)], r5)
                  else none
                | [] => none
              | none => none
            else none
          | [] => none
        | none => none
      else none
    | [] => none

end

/-- `JSON.parse`: parse one value and require only trailing whitespace. -/
def parseJson (s : String) : Option Json :=
  match parseVal (2 * s.length + 2) s.toList with
  | some (v, r) => if (skipWs r).isEmpty then some v else none
  | none => none

/-- Indentation run for the pretty printer. -/
def spacesN (n : Nat) : String := String.mk (List.replicate n ' ')

mutual

/-- `JSON.stringify(v, null, 2)`: 2-space-indented pretty printing. -/
def prettyJson (ind : Nat) : Json → String
  | .jnull => "null"
  | .jbool b => cond b "true" "false"
  | .jnum lex => lex
  | .jstr s => jsonQuote s
  | .jarr [] => "[]"
  | .jarr (x :: xs) =>
    "[\n" ++ prettyItems (ind + 2) (x :: xs) ++ "\n" ++ spacesN ind ++ "]"
  | .jobj [] => "\x7b\x7d"
  | .jobj (f :: fs) =>
    "\x7b\n" ++ prettyFields (ind + 2) (f :: fs) ++ "\n" ++ spacesN ind ++ "\x7d"

/-- Array items, one per line. -/
def prettyItems (ind : Nat) : List Json → String
  | [] => ""
  | [x] => spacesN ind ++ prettyJson ind x
  | x :: y :: xs =>
    spacesN ind ++ prettyJson ind x ++ ",\n" ++ prettyItems ind (y :: xs)

/-- Object fields, one per line. -/
def prettyFields (ind : Nat) : List (String × Json) → String
  | [] => ""
  | [f] => spacesN ind ++ jsonQuote f.1 ++ ": " ++ prettyJson ind f.2
  | f :: g :: fs =>
    spacesN ind ++ jsonQuote f.1 ++ ": " ++ prettyJson ind f.2 ++ ",\n" ++
      prettyFields ind (g :: fs)

end

/-- JS `typeof x === "object"` for a parsed JSON value (true for objects,
arrays and `null`). -/
def isObjectLike : Json → Bool
  | .jobj _ => true
  | .jarr _ => true
  | .jnull => true
  | _ => false

/-- JS `String(x)` coercion of a parsed primitive. -/
def jsPrimToString : Json → String
  | .jnum lex => lex
  | .jstr s => s
  | .jbool b => cond b "true" "false"
  | other => prettyJson 0 other

/-- Embedding of the response normalization of the dispatcher. -/
def normalizeResponse (body : String) : String :=
  match parseJson body with
  | none => body
  | some j =>
    match j with
    | .jarr items =>
      joinSep "\n\n" (items.map (fun item =>
        if isObjectLike item then prettyJson 0 item else jsPrimToString item))
    | .jobj fs => prettyJson 0 (.jobj fs)
    | .jnull => prettyJson 0 .jnull
    | .jstr s => s
    | .jnum lex => lex
    | .jbool b => cond b "true" "false"

/-! ## The per-invocation dispatcher -/
/-- The outbound HTTP request assembled by the dispatcher. -/
structure HttpRequest where
  method : String
  url : String
  headers : List (String × String)
  body : Option String
deriving DecidableEq, Repr

/-- An HTTP response as observed by the dispatcher. -/
structure FetchResponse where
  status : Nat
  body : String
deriving DecidableEq, Repr

/-- Outcome of the `fetch` call: either the promise rejects (network
error), or a response arrives. -/
inductive FetchOutcome where
  | throws (msg : String)
  | resp (r : FetchResponse)
deriving DecidableEq, Repr

/-- The single text payload a tool invocation returns
(`content: [\x7b type: "text", text \x7d]`). -/
structure ToolResult where
  text : String
deriving DecidableEq, Repr

/-- `Response.ok`: status in the 2xx range. -/
def respOk (r : FetchResponse) : Bool := 200 ≤ r.status && r.status < 300

/-- The error-result prefix `"Error in <toolName>: "` of the catch block. -/
def errText (toolName msg : String) : String :=
  "Error in " ++ toolName ++ ": " ++ msg

/-- Embedding of the body of the invocation callback up to (not including)
the `fetch` call: placeholder substitution, validation, Hawksoft path fix,
path-parameter substitution, header construction, body serialization.
An `.error` is a thrown exception on the way. -/
def buildPhase (path method : String) (op : Operation)
    (paramSchema : List (String × Zod)) (baseUrl organizationId : String)
    (freshUuid nowIso : String) (args : List (String × JsValue)) :
    Except String HttpRequest :=
  let processedParams := processPlaceholders freshUuid nowIso args
  match zodParseObject paramSchema processedParams with
  | .error e => .error e
  | .ok validatedParams =>
    let finalPath0 := hawksoftFix path
    let finalPath :=
      String.mk (substPathParams path.toList validatedParams finalPath0.toList)
    match buildHeaders op organizationId finalPath with
    | .error e => .error e
    | .ok headers =>
      let body := if op.requestBody.isSome then
          some (jsonStringify (remapClientNumber validatedParams))
        else none
      .ok { method := jsToUpperCase method, url := baseUrl ++ finalPath,
            headers := headers, body := body }

/-- The request the dispatcher hands to `fetch`, when it reaches it. -/
def requestSent (path method : String) (op : Operation)
    (paramSchema : List (String × Zod)) (baseUrl organizationId : String)
    (freshUuid nowIso : String) (args : List (String × JsValue)) :
    Option HttpRequest :=
  (buildPhase path method op paramSchema baseUrl organizationId freshUuid
    nowIso args).toOption

/-- Embedding of one whole tool invocation (`createToolFromEndpoint`'s
callback): every thrown error — validation failure, missing 200-response
entry, rejected fetch, non-2xx response — is caught and converted into a
normal text result prefixed with the tool's name; a 2xx response is
normalized. -/
def runInvocation (path method : String) (op : Operation)
    (paramSchema : List (String × Zod)) (baseUrl organizationId : String)
    (freshUuid nowIso : String) (args : List (String × JsValue))
    (fo : FetchOutcome) : ToolResult :=
  let toolName := toolNameOf op.operationId method path
  match buildPhase path method op paramSchema baseUrl organizationId freshUuid
    nowIso args with
  | .error e => ⟨errText toolName e⟩
  | .ok _req =>
    match fo with
    | .throws m => ⟨errText toolName m⟩
    | .resp r =>
      if respOk r then ⟨normalizeResponse r.body⟩
      else ⟨errText toolName
        (if r.body = "" then "HTTP error " ++ toString r.status else r.body)⟩

/-- The operation with its query-location parameters removed. -/
def opEraseQuery (op : Operation) : Operation :=
  { op with parameters := op.parameters.filter (fun p => p.loc != "query") }

/-! ## Claim C5: path templates and parameter substitution

A well-formed path template is an alternation of brace-free literal
segments and `\x7bname\x7d` parameter segments with pairwise-distinct,
brace-free names — the shape of the `paths` keys of the document.  The
segment list below is the specification-side view; `renderT` flattens it to
the literal template string on which the dispatcher's substitution loop
(`substPathParams`) operates. -/
/-- One segment of a path template. -/
inductive Seg where
  | lit (cs : List Char)
  | param (name : String)
deriving DecidableEq, Repr

/-- Characters of one segment. -/
def renderSeg : Seg → List Char
  | .lit cs => cs
  | .param n => braceWrap n

/-- The literal template string of a segment list. -/
def renderT (segs : List Seg) : List Char := (segs.map renderSeg).join

/-- The per-segment effect of substituting an argument set: a parameter
with a supplied value becomes the percent-encoded literal. -/
def substSeg (args : List (String × JsValue)) : Seg → Seg
  | .lit cs => .lit cs
  | .param n =>
    match lookupVal n args with
    | some v => .lit (encodeURIComponent (jsString v)).toList
    | none => .param n

/-- Names of the parameter segments, in order. -/
def paramNames : List Seg → List String
  | [] => []
  | .lit _ :: t => paramNames t
  | .param n :: t => n :: paramNames t

/-- No brace characters. -/
def noBrace (cs : List Char) : Prop := ∀ c ∈ cs, c ≠ lb ∧ c ≠ rb

/-- Well-formedness of one segment. -/
def segWf : Seg → Prop
  | .lit cs => noBrace cs
  | .param n => noBrace n.toList

/-- Well-formed template: brace-free literals and names, distinct names. -/
def wfT (segs : List Seg) : Prop :=
  (∀ s ∈ segs, segWf s) ∧ (paramNames segs).Nodup

instance : DecidablePred noBrace := by
  intro cs
  unfold noBrace
  infer_instance

instance : DecidablePred segWf := by
  intro s
  cases s <;> simp only [segWf] <;> infer_instance

instance (segs : List Seg) : Decidable (wfT segs) := by
  unfold wfT
  infer_instance

/-- Segments the first-occurrence search can safely walk past when looking
for `\x7bx\x7d`: literals with no opening brace and parameters other than `x`. -/
def skipOk (x : String) : Seg → Prop
  | .lit cs => ∀ c ∈ cs, c ≠ lb
  | .param z => z ≠ x ∧ noBrace z.toList


/-! ## Generic lemmas about objInsert -/
theorem mem_objKeys {o : List (String × α)} {k : String} :
    k ∈ objKeys o ↔ ∃ e ∈ o, e.1 = k := by
  simp [objKeys, List.mem_map]

theorem objKeys_objInsert_mem {k : String} {v : α} {o : List (String × α)}
    (h : k ∈ objKeys o) : objKeys (objInsert k v o) = objKeys o := by
  have hany : o.any (fun e => e.1 = k) = true := by
    obtain ⟨e, he, hek⟩ := mem_objKeys.1 h
    exact List.any_eq_true.2 ⟨e, he, by simp [hek]⟩
  simp only [objInsert, hany, if_true, objKeys, List.map_map]
  apply List.map_congr_left
  intro e _
  by_cases hek : e.1 = k <;> simp [hek]

theorem objKeys_objInsert_not_mem {k : String} {v : α} {o : List (String × α)}
    (h : k ∉ objKeys o) : objKeys (objInsert k v o) = objKeys o ++ [k] := by
  have hany : o.any (fun e => e.1 = k) = false := by
    rw [List.any_eq_false]
    intro e he
    simp only [decide_eq_true_eq]
    intro hek
    exact h (mem_objKeys.2 ⟨e, he, hek⟩)
  simp [objInsert, hany, objKeys]

theorem objKeys_objInsert_nodup {k : String} {v : α} {o : List (String × α)}
    (h : (objKeys o).Nodup) : (objKeys (objInsert k v o)).Nodup := by
  by_cases hk : k ∈ objKeys o
  · rw [objKeys_objInsert_mem hk]; exact h
  · rw [objKeys_objInsert_not_mem hk]
    simpa [List.nodup_append] using ⟨h, fun hmem => hk hmem⟩

theorem lookupVal_map_overwrite (k : String) (v : α) :
    ∀ (o : List (String × α)), (∃ e ∈ o, e.1 = k) →
      lookupVal k (o.map (fun e => if e.1 = k then (k, v) else e)) = some v
  | [], h => by obtain ⟨e, he, _⟩ := h; cases he
  | hd :: tl, h => by
    by_cases hhd : hd.1 = k
    · rw [List.map_cons, if_pos hhd]
      simp [lookupVal]
    · rw [List.map_cons, if_neg hhd]
      have : lookupVal k (hd :: tl.map (fun e => if e.1 = k then (k, v) else e))
          = lookupVal k (tl.map (fun e => if e.1 = k then (k, v) else e)) := by
        simp [lookupVal, hhd]
      rw [this]
      obtain ⟨e, he, hek⟩ := h
      rcases List.mem_cons.1 he with rfl | he2
      · exact absurd hek hhd
      · exact lookupVal_map_overwrite k v tl ⟨e, he2, hek⟩

theorem lookupVal_append_right (k : String) (v : α) :
    ∀ (o : List (String × α)), (∀ e ∈ o, ¬ e.1 = k) →
      lookupVal k (o ++ [(k, v)]) = some v
  | [], _ => by simp [lookupVal]
  | hd :: tl, h => by
    have hhd : ¬ hd.1 = k := h hd (by simp)
    simp only [List.cons_append, lookupVal, hhd, if_false]
    exact lookupVal_append_right k v tl (fun e he => h e (by simp [he]))

theorem lookupVal_objInsert (k : String) (v : α) (o : List (String × α)) :
    lookupVal k (objInsert k v o) = some v := by
  unfold objInsert
  by_cases hany : o.any (fun e => e.1 = k) = true
  · rw [if_pos hany]
    rw [List.any_eq_true] at hany
    obtain ⟨e, he, hek⟩ := hany
    exact lookupVal_map_overwrite k v o ⟨e, he, by simpa using hek⟩
  · rw [if_neg hany]
    rw [Bool.not_eq_true, List.any_eq_false] at hany
    exact lookupVal_append_right k v o (fun e he => by simpa using hany e he)

theorem countKey_map_overwrite (k : String) (v : α) :
    ∀ (o : List (String × α)), (objKeys o).Nodup → (∃ e ∈ o, e.1 = k) →
      ((o.map (fun e => if e.1 = k then (k, v) else e)).filter
        (fun e => e.1 = k)).length = 1
  | [], _, h => by obtain ⟨e, he, _⟩ := h; cases he
  | hd :: tl, hnd, h => by
    simp only [objKeys, List.map_cons, List.nodup_cons] at hnd
    by_cases hhd : hd.1 = k
    · have htl : ∀ e ∈ tl, ¬ e.1 = k := by
        intro e he hek
        exact hnd.1 (by rw [← hhd] at hek; exact (mem_objKeys.2 ⟨e, he, hek⟩))
      have hnil : (tl.map (fun e => if e.1 = k then (k, v) else e)).filter
          (fun e => e.1 = k) = [] := by
        rw [List.filter_eq_nil_iff]
        intro e he
        simp only [List.mem_map] at he
        obtain ⟨e0, he0, hee⟩ := he
        rw [if_neg (htl e0 he0)] at hee
        subst hee
        simpa using htl e0 he0
      rw [List.map_cons, if_pos hhd]
      simp [List.filter_cons, hnil]
    · rw [List.map_cons, if_neg hhd, List.filter_cons]
      have hdec : (decide (hd.1 = k)) = false := by simpa using hhd
      simp only [hdec, if_false]
      obtain ⟨e, he, hek⟩ := h
      rcases List.mem_cons.1 he with rfl | he2
      · exact absurd hek hhd
      · exact countKey_map_overwrite k v tl hnd.2 ⟨e, he2, hek⟩

theorem countKey_objInsert {k : String} {v : α} {o : List (String × α)}
    (h : (objKeys o).Nodup) :
    ((objInsert k v o).filter (fun e => e.1 = k)).length = 1 := by
  by_cases hk : k ∈ objKeys o
  · unfold objInsert
    have hany : o.any (fun e => e.1 = k) = true := by
      obtain ⟨e, he, hek⟩ := mem_objKeys.1 hk
      exact List.any_eq_true.2 ⟨e, he, by simp [hek]⟩
    rw [if_pos hany]
    exact countKey_map_overwrite k v o h (mem_objKeys.1 hk)
  · unfold objInsert
    have hany : o.any (fun e => e.1 = k) = false := by
      rw [List.any_eq_false]
      intro e he
      simp only [decide_eq_true_eq]
      intro hek
      exact hk (mem_objKeys.2 ⟨e, he, hek⟩)
    rw [if_neg (by simp [hany])]
    rw [List.filter_append]
    have h0 : o.filter (fun e => e.1 = k) = [] := by
      rw [List.filter_eq_nil_iff]
      intro e he
      simp only [decide_eq_true_eq]
      intro hek
      exact hk (mem_objKeys.2 ⟨e, he, hek⟩)
    simp [h0]

/-! ## Claim C8: the sanitizer is idempotent -/
theorem sanitizeChar_idem (c : Char) : sanitizeChar (sanitizeChar c) = sanitizeChar c := by
  unfold sanitizeChar
  by_cases h : isNameChar c
  · simp [h]
  · simp only [h, if_false]
    have : isNameChar '_' = true := by decide
    simp [this]

/-- C8: the tool-name sanitizer (replace every character outside
`[A-Za-z0-9_-]` with `_`, then truncate to 64 characters) is idempotent:
applying it twice yields the same result as applying it once. -/
theorem sanitize_idempotent (s : String) :
    sanitizeToolName (sanitizeToolName s) = sanitizeToolName s := by
  unfold sanitizeToolName
  have hdata : (String.mk ((s.toList.map sanitizeChar).take 64)).toList
      = (s.toList.map sanitizeChar).take 64 := rfl
  rw [hdata]
  congr 1
  have hl : (s.toList.map sanitizeChar).map sanitizeChar = s.toList.map sanitizeChar := by
    rw [List.map_map]
    apply List.map_congr_left
    intro c _
    exact sanitizeChar_idem c
  calc (((s.toList.map sanitizeChar).take 64).map sanitizeChar).take 64
      = (((s.toList.map sanitizeChar).map sanitizeChar).take 64).take 64 := by
        rw [List.map_take]
    _ = ((s.toList.map sanitizeChar).take 64).take 64 := by rw [hl]
    _ = (s.toList.map sanitizeChar).take 64 := by simp [List.take_take]

/-! ## Claim C1: duplicate tool names — later registration wins -/
/-- C1: for two registrations under the same derived name, the registry keeps
exactly one entry under that name, and it is the later-registered one; tool
names in the registry stay unique (Nodup keys are preserved by every
registration). -/
theorem register_overwrites_collision (reg : List (String × ToolDef)) (n : String)
    (d1 d2 : ToolDef) (h : (objKeys reg).Nodup) :
    (objKeys (registerTool reg n d1)).Nodup ∧
    ((registerTool (registerTool reg n d1) n d2).filter (fun e => e.1 = n)).length = 1 ∧
    lookupVal n (registerTool (registerTool reg n d1) n d2) = some d2 := by
  refine ⟨objKeys_objInsert_nodup h, ?_, lookupVal_objInsert n d2 _⟩
  exact countKey_objInsert (objKeys_objInsert_nodup h)

/-- Witness for C1 at a concrete registry and two concrete colliding tools. -/
theorem register_overwrites_collision_witness :
    (objKeys ([] : List (String × ToolDef))).Nodup ∧
    ((objKeys (registerTool ([] : List (String × ToolDef)) "get_item"
        ⟨"/items/a", "get"⟩)).Nodup ∧
      ((registerTool (registerTool [] "get_item" ⟨"/items/a", "get"⟩) "get_item"
        ⟨"/items/b", "get"⟩).filter (fun e => e.1 = "get_item")).length = 1 ∧
      lookupVal "get_item" (registerTool (registerTool [] "get_item"
        ⟨"/items/a", "get"⟩) "get_item" ⟨"/items/b", "get"⟩)
        = some ⟨"/items/b", "get"⟩) :=
  ⟨by simp [objKeys],
   register_overwrites_collision [] "get_item" ⟨"/items/a", "get"⟩
     ⟨"/items/b", "get"⟩ (by simp [objKeys])⟩

/-! ## Claim C2: derived tool name for explicit operation identifiers -/
/-- C2 (amended): in the swagger-client variant, an operation with a
non-empty explicit identifier gets exactly the sanitized identifier —
every character outside `[A-Za-z0-9_-]` replaced by `_` — truncated to at
most 64 characters, as its tool name. -/
theorem deriveToolNameV1_explicit_id (oid : Option String) (tag opId : String)
    (s : String) (h1 : oid = some s) (h2 : s ≠ "") :
    deriveToolNameV1 oid tag opId = sanitizeToolName s ∧
    sanitizeToolName s = String.mk ((s.toList.map sanitizeChar).take 64) ∧
    (sanitizeToolName s).length ≤ 64 := by
  subst h1
  refine ⟨?_, rfl, ?_⟩
  · unfold deriveToolNameV1 strTruthy
    simp [h2]
  · have hlen : (sanitizeToolName s).length
        = ((s.toList.map sanitizeChar).take 64).length := rfl
    rw [hlen]
    simp [List.length_take]

/-- Witness for C2 at the concrete identifier "get.item". -/
theorem deriveToolNameV1_explicit_id_witness :
    ((some "get.item" : Option String) = some "get.item") ∧ ("get.item" ≠ "") ∧
    (deriveToolNameV1 (some "get.item") "items" "getItem"
        = sanitizeToolName "get.item" ∧
      sanitizeToolName "get.item"
        = String.mk (("get.item".toList.map sanitizeChar).take 64) ∧
      (sanitizeToolName "get.item").length ≤ 64) :=
  ⟨rfl, by decide,
   deriveToolNameV1_explicit_id (some "get.item") "items" "getItem" "get.item"
     rfl (by decide)⟩

/-- C2 counterexample: in the v3 variant (`createToolFromEndpoint`), an
explicit identifier is used verbatim as the tool name; for the identifier
"get.item" the derived name is "get.item", which differs from the sanitized
form "get_item" that the claim prescribes. -/
theorem toolNameOf_not_sanitized :
    toolNameOf (some "get.item") "get" "/items" = "get.item" ∧
    sanitizeToolName "get.item" = "get_item" ∧
    ("get.item" : String) ≠ "get_item" := by
  refine ⟨by decide, by decide, by decide⟩

/-! ## Claim C7: the string-format validators -/
theorem resolveSchemaRef_string (fmt : Option String)
    (schemas : List (String × SchemaObject)) :
    resolveSchemaRef none ⟨some "string", fmt, none, none⟩ schemas =
      .ok (if fmt = some "uuid" then .zUnion2 .zStringUuid (.zLiteral guidSentinel)
        else if fmt = some "date-time" ∨ fmt = some "datetime" then
          .zUnion2 .zStringDatetimeOffset (.zLiteral datetimeSentinel)
        else if fmt = some "date" then .zStringDate
        else if fmt = some "time" then .zStringTime
        else .zString) := by
  unfold resolveSchemaRef
  simp only [strTruthy, Bool.false_eq_true, if_false, Option.isSome_none]
  rw [if_neg (by simp)]
  simp only [if_true]
  split_ifs <;> rfl

/-- C7 (amended): the validator derived for a string-typed inline property
accepts exactly: for format `uuid`, syntactic UUIDs or the GUID sentinel;
for format `date-time` — and its alias `datetime`, which the code treats
identically — offset-qualified ISO-8601 datetimes or the datetime sentinel;
for format `date`, strings matching `YYYY-MM-DD`; for format `time`, strings
matching `HH:MM:SS`; and for any other or absent format, any string. -/
theorem string_validator_characterization (fmt : Option String)
    (schemas : List (String × SchemaObject)) (s : String) :
    ∃ z, resolveSchemaRef none ⟨some "string", fmt, none, none⟩ schemas = .ok z ∧
      zodAccepts z (.vStr s) =
        (if fmt = some "uuid" then isUuid s || s == guidSentinel
         else if fmt = some "date-time" ∨ fmt = some "datetime" then
           isOffsetDatetime s || s == datetimeSentinel
         else if fmt = some "date" then isDateYmd s
         else if fmt = some "time" then isTimeHms s
         else true) := by
  refine ⟨_, resolveSchemaRef_string fmt schemas, ?_⟩
  split_ifs with h1 h2 h3 h4 <;> simp [zodAccepts]

/-- C7 counterexample: for format `datetime` — which is not among the
formats the claim enumerates, so the claim requires "any string" to be
accepted — the derived validator rejects the string "hello". -/
theorem datetime_alias_rejects :
    resolveSchemaRef none ⟨some "string", some "datetime", none, none⟩ []
      = .ok (.zUnion2 .zStringDatetimeOffset (.zLiteral datetimeSentinel)) ∧
    zodAccepts (.zUnion2 .zStringDatetimeOffset (.zLiteral datetimeSentinel))
      (.vStr "hello") = false := by
  exact ⟨rfl, by decide⟩

/-! ## Lemmas about the digit renderings and scanners -/
theorem digitChar_mod10_digit (n : Nat) :
    isDigitChar (Nat.digitChar (n % 10)) = true := by
  have h : n % 10 < 10 := Nat.mod_lt _ (by norm_num)
  have hall : ∀ k : Fin 10, isDigitChar (Nat.digitChar k.val) = true := by decide
  simpa using hall ⟨n % 10, h⟩

theorem digitChar_mod16_hex (n : Nat) :
    isHexChar (Nat.digitChar (n % 16)) = true := by
  have h : n % 16 < 16 := Nat.mod_lt _ (by norm_num)
  have hall : ∀ k : Fin 16, isHexChar (Nat.digitChar k.val) = true := by decide
  simpa using hall ⟨n % 16, h⟩

theorem decBE_length (n : Nat) : ∀ len, (decBE n len).length = len := by
  intro len
  induction len generalizing n with
  | zero => rfl
  | succ l ih => simp [decBE, ih]

theorem decBE_digits (n : Nat) : ∀ len, ∀ c ∈ decBE n len, isDigitChar c = true := by
  intro len
  induction len generalizing n with
  | zero => intro c hc; cases hc
  | succ l ih =>
    intro c hc
    simp only [decBE, List.mem_append, List.mem_singleton] at hc
    rcases hc with hc | hc
    · exact ih (n / 10) c hc
    · subst hc; exact digitChar_mod10_digit n

theorem hexLE_length (n : Nat) : ∀ len, (hexLE n len).length = len := by
  intro len
  induction len generalizing n with
  | zero => rfl
  | succ l ih => simp [hexLE, ih]

theorem hexLE_hex (n : Nat) : ∀ len, ∀ c ∈ hexLE n len, isHexChar c = true := by
  intro len
  induction len generalizing n with
  | zero => intro c hc; cases hc
  | succ l ih =>
    intro c hc
    simp only [hexLE, List.mem_cons] at hc
    rcases hc with hc | hc
    · subst hc; exact digitChar_mod16_hex n
    · exact ih (n / 16) c hc

theorem eatPred_exact {p : Char → Bool} :
    ∀ (l r : List Char), (∀ c ∈ l, p c = true) →
      eatPred p l.length (l ++ r) = some r := by
  intro l
  induction l with
  | nil => intro r _; rfl
  | cons x t ih =>
    intro r h
    have hx : p x = true := h x (by simp)
    simp only [List.length_cons, List.cons_append, eatPred, hx, if_true]
    exact ih r (fun c hc => h c (by simp [hc]))

@[simp] theorem eatPred_decBE (n len : Nat) (r : List Char) :
    eatPred isDigitChar len (decBE n len ++ r) = some r := by
  have := eatPred_exact (decBE n len) r (decBE_digits n len)
  rwa [decBE_length] at this

@[simp] theorem eatPred_decBE_nil (n len : Nat) :
    eatPred isDigitChar len (decBE n len) = some [] := by
  have := eatPred_decBE n len []
  rwa [List.append_nil] at this

@[simp] theorem eatPred_hexLE (n len : Nat) (r : List Char) :
    eatPred isHexChar len (hexLE n len ++ r) = some r := by
  have := eatPred_exact (hexLE n len) r (hexLE_hex n len)
  rwa [hexLE_length] at this

@[simp] theorem eatPred_hexLE_nil (n len : Nat) :
    eatPred isHexChar len (hexLE n len) = some [] := by
  have := eatPred_hexLE n len []
  rwa [List.append_nil] at this

@[simp] theorem eatChar_cons (c : Char) (r : List Char) :
    eatChar c (c :: r) = some r := by simp [eatChar]

theorem takeWhile_all_append {p : Char → Bool} :
    ∀ (l : List Char) (x : Char) (r : List Char), (∀ c ∈ l, p c = true) →
      p x = false →
      (l ++ x :: r).takeWhile p = l ∧ (l ++ x :: r).dropWhile p = x :: r := by
  intro l
  induction l with
  | nil =>
    intro x r _ hx
    simp [List.takeWhile, List.dropWhile, hx]
  | cons y t ih =>
    intro x r h hx
    have hy : p y = true := h y (by simp)
    have := ih x r (fun c hc => h c (by simp [hc])) hx
    simp [List.takeWhile, List.dropWhile, hy, this.1, this.2]

@[simp] theorem eatFracOpt_ms (n : Nat) :
    eatFracOpt ('.' :: (decBE n 3 ++ ['Z'])) = some ['Z'] := by
  have h := takeWhile_all_append (decBE n 3) 'Z' [] (decBE_digits n 3) (by decide)
  have hne : decBE n 3 ≠ [] := by
    intro hnil
    have hl := decBE_length n 3
    rw [hnil] at hl
    simp at hl
  simp only [eatFracOpt]
  rw [if_pos trivial, h.1, h.2]
  simp [List.isEmpty_iff, hne]

@[simp] theorem eatOffset_Z : eatOffset ['Z'] = some [] := by
  simp [eatOffset]

/-- The validity of the modelled generator's output: every produced string
is a syntactic UUID. -/
theorem randomUUID_valid (e : Nat) : isUuid (randomUUID e) = true := by
  show isUuidChars (randomUUIDChars e) = true
  unfold isUuidChars randomUUIDChars
  simp only [Option.bind_eq_bind]
  rw [eatPred_hexLE, Option.some_bind, eatChar_cons, Option.some_bind,
    eatPred_hexLE, Option.some_bind, eatChar_cons, Option.some_bind,
    eatPred_hexLE, Option.some_bind, eatChar_cons, Option.some_bind,
    eatPred_hexLE, Option.some_bind, eatChar_cons, Option.some_bind,
    eatPred_hexLE_nil]

/-- The modelled clock rendering is an offset-qualified ISO-8601 datetime. -/
theorem toISOString_valid (t : DateParts) :
    isOffsetDatetime (toISOString t) = true := by
  show isOffsetDatetimeChars (decBE t.year 4 ++ ('-' ::
    (decBE t.month 2 ++ ('-' ::
    (decBE t.day 2 ++ ('T' ::
    (decBE t.hour 2 ++ (':' ::
    (decBE t.minute 2 ++ (':' ::
    (decBE t.second 2 ++ ('.' ::
    (decBE t.ms 3 ++ ['Z']))))))))))))) = true
  unfold isOffsetDatetimeChars
  simp only [Option.bind_eq_bind]
  rw [eatPred_decBE, Option.some_bind, eatChar_cons, Option.some_bind,
    eatPred_decBE, Option.some_bind, eatChar_cons, Option.some_bind,
    eatPred_decBE, Option.some_bind, eatChar_cons, Option.some_bind,
    eatPred_decBE, Option.some_bind, eatChar_cons, Option.some_bind,
    eatPred_decBE, Option.some_bind, eatChar_cons, Option.some_bind,
    eatPred_decBE, Option.some_bind, eatFracOpt_ms, Option.some_bind,
    eatOffset_Z]

theorem hexLE_inj : ∀ (len n m : Nat), n < 16 ^ len → m < 16 ^ len →
    hexLE n len = hexLE m len → n = m := by
  intro len
  induction len with
  | zero =>
    intro n m hn hm _
    simp only [pow_zero] at hn hm
    omega
  | succ l ih =>
    intro n m hn hm heq
    simp only [hexLE] at heq
    injection heq with hhead htail
    have hdr : n % 16 = m % 16 := by
      have hinj : ∀ a b : Fin 16, Nat.digitChar a.val = Nat.digitChar b.val →
          a = b := by decide
      have hb1 : n % 16 < 16 := Nat.mod_lt _ (by norm_num)
      have hb2 : m % 16 < 16 := Nat.mod_lt _ (by norm_num)
      exact congrArg Fin.val (hinj ⟨n % 16, hb1⟩ ⟨m % 16, hb2⟩ hhead)
    have hdv : n / 16 = m / 16 := by
      apply ih
      · rw [Nat.div_lt_iff_lt_mul (by norm_num : (0:Nat) < 16)]
        calc n < 16 ^ (l + 1) := hn
          _ = 16 ^ l * 16 := by rw [pow_succ]
      · rw [Nat.div_lt_iff_lt_mul (by norm_num : (0:Nat) < 16)]
        calc m < 16 ^ (l + 1) := hm
          _ = 16 ^ l * 16 := by rw [pow_succ]
      · exact htail
    omega

theorem mod_pow_lt (e k : Nat) : e % 16 ^ k < 16 ^ k :=
  Nat.mod_lt _ (Nat.pos_pow_of_pos k (by norm_num))

/-- Injectivity of the modelled generator on its entropy space: two
invocations with different random inputs produce different UUID strings. -/
theorem randomUUID_inj (e1 e2 : Nat) (h1 : e1 < uuidEntropyBound)
    (h2 : e2 < uuidEntropyBound) (heq : randomUUID e1 = randomUUID e2) :
    e1 = e2 := by
  have hc : randomUUIDChars e1 = randomUUIDChars e2 := congrArg String.data heq
  unfold randomUUIDChars at hc
  obtain ⟨g1, hrest⟩ := List.append_inj hc (by rw [hexLE_length, hexLE_length])
  injection hrest with _ hrest
  obtain ⟨g2, hrest⟩ := List.append_inj hrest (by rw [hexLE_length, hexLE_length])
  injection hrest with _ hrest
  obtain ⟨g3, hrest⟩ := List.append_inj hrest (by rw [hexLE_length, hexLE_length])
  injection hrest with _ hrest
  obtain ⟨g4, hrest⟩ := List.append_inj hrest (by rw [hexLE_length, hexLE_length])
  injection hrest with _ g5
  -- group values
  have f1 : e1 % 16 ^ 8 = e2 % 16 ^ 8 :=
    hexLE_inj 8 _ _ (mod_pow_lt e1 8) (mod_pow_lt e2 8) g1
  have f2 : e1 / 16 ^ 8 % 16 ^ 4 = e2 / 16 ^ 8 % 16 ^ 4 :=
    hexLE_inj 4 _ _ (mod_pow_lt _ 4) (mod_pow_lt _ 4) g2
  have hg3bound : ∀ e : Nat, e / 16 ^ 12 % 16 ^ 3 + 4 * 16 ^ 3 < 16 ^ 4 := by
    intro e
    have := mod_pow_lt (e / 16 ^ 12) 3
    norm_num at this ⊢
    omega
  have f3g : e1 / 16 ^ 12 % 16 ^ 3 + 4 * 16 ^ 3
      = e2 / 16 ^ 12 % 16 ^ 3 + 4 * 16 ^ 3 :=
    hexLE_inj 4 _ _ (hg3bound e1) (hg3bound e2) g3
  have f3 : e1 / 16 ^ 12 % 16 ^ 3 = e2 / 16 ^ 12 % 16 ^ 3 := by omega
  have hg4bound : ∀ e : Nat,
      e / 16 ^ 15 % 16 ^ 3 + (8 + e / 16 ^ 30 % 4) * 16 ^ 3 < 16 ^ 4 := by
    intro e
    have ha := mod_pow_lt (e / 16 ^ 15) 3
    have hb : e / 16 ^ 30 % 4 < 4 := Nat.mod_lt _ (by norm_num)
    norm_num at ha ⊢
    omega
  have f4g : e1 / 16 ^ 15 % 16 ^ 3 + (8 + e1 / 16 ^ 30 % 4) * 16 ^ 3
      = e2 / 16 ^ 15 % 16 ^ 3 + (8 + e2 / 16 ^ 30 % 4) * 16 ^ 3 :=
    hexLE_inj 4 _ _ (hg4bound e1) (hg4bound e2) g4
  have f4 : e1 / 16 ^ 15 % 16 ^ 3 = e2 / 16 ^ 15 % 16 ^ 3 ∧
      e1 / 16 ^ 30 % 4 = e2 / 16 ^ 30 % 4 := by
    have ha := mod_pow_lt (e1 / 16 ^ 15) 3
    have hb := mod_pow_lt (e2 / 16 ^ 15) 3
    norm_num at ha hb f4g
    omega
  have f5 : e1 / 16 ^ 18 % 16 ^ 12 = e2 / 16 ^ 18 % 16 ^ 12 :=
    hexLE_inj 12 _ _ (mod_pow_lt _ 12) (mod_pow_lt _ 12) g5
  -- reconstruct e from the fields, top down
  have hv : e1 / 16 ^ 30 = e2 / 16 ^ 30 := by
    have hlt1 : e1 / 16 ^ 30 < 4 := by
      rw [Nat.div_lt_iff_lt_mul (Nat.pos_pow_of_pos 30 (by norm_num))]
      calc e1 < uuidEntropyBound := h1
        _ = 4 * 16 ^ 30 := rfl
        _ = 16 ^ 30 * 4 := by ring
    have hlt2 : e2 / 16 ^ 30 < 4 := by
      rw [Nat.div_lt_iff_lt_mul (Nat.pos_pow_of_pos 30 (by norm_num))]
      calc e2 < uuidEntropyBound := h2
        _ = 4 * 16 ^ 30 := rfl
        _ = 16 ^ 30 * 4 := by ring
    have := f4.2
    rwa [Nat.mod_eq_of_lt hlt1, Nat.mod_eq_of_lt hlt2] at this
  have h18 : e1 / 16 ^ 18 = e2 / 16 ^ 18 := by
    have d1 : e1 / 16 ^ 18 / 16 ^ 12 = e1 / 16 ^ 30 := by
      rw [Nat.div_div_eq_div_mul, ← pow_add]
    have d2 : e2 / 16 ^ 18 / 16 ^ 12 = e2 / 16 ^ 30 := by
      rw [Nat.div_div_eq_div_mul, ← pow_add]
    calc e1 / 16 ^ 18 = e1 / 16 ^ 18 % 16 ^ 12 + 16 ^ 12 * (e1 / 16 ^ 18 / 16 ^ 12) :=
          (Nat.mod_add_div _ _).symm
      _ = e2 / 16 ^ 18 % 16 ^ 12 + 16 ^ 12 * (e2 / 16 ^ 18 / 16 ^ 12) := by
          rw [f5, d1, d2, hv]
      _ = e2 / 16 ^ 18 := Nat.mod_add_div _ _
  have h15 : e1 / 16 ^ 15 = e2 / 16 ^ 15 := by
    have d1 : e1 / 16 ^ 15 / 16 ^ 3 = e1 / 16 ^ 18 := by
      rw [Nat.div_div_eq_div_mul, ← pow_add]
    have d2 : e2 / 16 ^ 15 / 16 ^ 3 = e2 / 16 ^ 18 := by
      rw [Nat.div_div_eq_div_mul, ← pow_add]
    calc e1 / 16 ^ 15 = e1 / 16 ^ 15 % 16 ^ 3 + 16 ^ 3 * (e1 / 16 ^ 15 / 16 ^ 3) :=
          (Nat.mod_add_div _ _).symm
      _ = e2 / 16 ^ 15 % 16 ^ 3 + 16 ^ 3 * (e2 / 16 ^ 15 / 16 ^ 3) := by
          rw [f4.1, d1, d2, h18]
      _ = e2 / 16 ^ 15 := Nat.mod_add_div _ _
  have h12 : e1 / 16 ^ 12 = e2 / 16 ^ 12 := by
    have d1 : e1 / 16 ^ 12 / 16 ^ 3 = e1 / 16 ^ 15 := by
      rw [Nat.div_div_eq_div_mul, ← pow_add]
    have d2 : e2 / 16 ^ 12 / 16 ^ 3 = e2 / 16 ^ 15 := by
      rw [Nat.div_div_eq_div_mul, ← pow_add]
    calc e1 / 16 ^ 12 = e1 / 16 ^ 12 % 16 ^ 3 + 16 ^ 3 * (e1 / 16 ^ 12 / 16 ^ 3) :=
          (Nat.mod_add_div _ _).symm
      _ = e2 / 16 ^ 12 % 16 ^ 3 + 16 ^ 3 * (e2 / 16 ^ 12 / 16 ^ 3) := by
          rw [f3, d1, d2, h15]
      _ = e2 / 16 ^ 12 := Nat.mod_add_div _ _
  have h8 : e1 / 16 ^ 8 = e2 / 16 ^ 8 := by
    have d1 : e1 / 16 ^ 8 / 16 ^ 4 = e1 / 16 ^ 12 := by
      rw [Nat.div_div_eq_div_mul, ← pow_add]
    have d2 : e2 / 16 ^ 8 / 16 ^ 4 = e2 / 16 ^ 12 := by
      rw [Nat.div_div_eq_div_mul, ← pow_add]
    calc e1 / 16 ^ 8 = e1 / 16 ^ 8 % 16 ^ 4 + 16 ^ 4 * (e1 / 16 ^ 8 / 16 ^ 4) :=
          (Nat.mod_add_div _ _).symm
      _ = e2 / 16 ^ 8 % 16 ^ 4 + 16 ^ 4 * (e2 / 16 ^ 8 / 16 ^ 4) := by
          rw [f2, d1, d2, h12]
      _ = e2 / 16 ^ 8 := Nat.mod_add_div _ _
  calc e1 = e1 % 16 ^ 8 + 16 ^ 8 * (e1 / 16 ^ 8) := (Nat.mod_add_div _ _).symm
    _ = e2 % 16 ^ 8 + 16 ^ 8 * (e2 / 16 ^ 8) := by rw [f1, h8]
    _ = e2 := Nat.mod_add_div _ _

/-! ## Claim C6: sentinel replacement before validation -/
/-- C6: every string argument equal to the GUID sentinel is replaced —
before validation — by the freshly generated UUID, every one equal to the
datetime sentinel by the current instant as an offset-qualified ISO-8601
string, and all other values pass through unchanged; the generated UUID is
syntactically valid and differs between invocations with different
entropy, so the substituted values themselves satisfy the uuid/datetime
field validators. -/
theorem placeholder_substitution (u iso : String)
    (args : List (String × JsValue)) (e1 e2 : Nat) (t : DateParts) (k : String)
    (he1 : e1 < uuidEntropyBound) (he2 : e2 < uuidEntropyBound) :
    processPlaceholders u iso args = args.map (fun kv =>
      if kv.2 = .vStr guidSentinel then (kv.1, .vStr u)
      else if kv.2 = .vStr datetimeSentinel then (kv.1, .vStr iso)
      else kv) ∧
    isUuid (randomUUID e1) = true ∧
    (randomUUID e1 = randomUUID e2 → e1 = e2) ∧
    isOffsetDatetime (toISOString t) = true ∧
    zodParseObject [(k, .zUnion2 .zStringUuid (.zLiteral guidSentinel))]
        (processPlaceholders (randomUUID e1) iso [(k, .vStr guidSentinel)])
      = .ok [(k, .vStr (randomUUID e1))] ∧
    zodParseObject
        [(k, .zUnion2 .zStringDatetimeOffset (.zLiteral datetimeSentinel))]
        (processPlaceholders u (toISOString t) [(k, .vStr datetimeSentinel)])
      = .ok [(k, .vStr (toISOString t))] := by
  refine ⟨?_, randomUUID_valid e1, randomUUID_inj e1 e2 he1 he2,
    toISOString_valid t, ?_, ?_⟩
  · unfold processPlaceholders
    apply List.map_congr_left
    intro kv _
    rcases kv with ⟨k0, v0⟩
    cases v0 <;> simp
  · have hdg : (datetimeSentinel = guidSentinel) = False := by
      simp [datetimeSentinel, guidSentinel]
    simp [processPlaceholders, zodParseObject, lookupVal, zodAccepts,
      randomUUID_valid e1]
  · have hdg : ¬ (datetimeSentinel = guidSentinel) := by decide
    simp [processPlaceholders, zodParseObject, lookupVal, zodAccepts, hdg,
      toISOString_valid t]

/-- Witness for C6 at concrete entropy values and a concrete clock value. -/
theorem placeholder_substitution_witness :
    isUuid (randomUUID 0) = true ∧
    (randomUUID 0 = randomUUID 0 → (0 : Nat) = 0) := by
  have h := placeholder_substitution "x" "y" [] 0 0 ⟨2025, 1, 1, 0, 0, 0, 0⟩
    "id" (by norm_num [uuidEntropyBound]) (by norm_num [uuidEntropyBound])
  exact ⟨h.2.1, h.2.2.1⟩

/-! ## Claim C3: every failure is captured as a prefixed text result -/
/-- C3: for every invocation, the result is always a plain text payload:
either it is the catch-block text `"Error in <tool>: <message>"` — which
is what every failure kind (validation failure, thrown fetch, non-2xx
status, missing 200-response entry) produces — or the fetch succeeded
with a 2xx response and the text is its normalization.  A non-2xx status
always yields the prefixed failure text (with the response body, or a
synthesized `HTTP error <status>` when the body is empty), never a
normalized success. -/
theorem dispatcher_error_capture (path method : String) (op : Operation)
    (ps : List (String × Zod)) (baseUrl orgId u iso : String)
    (args : List (String × JsValue)) (fo : FetchOutcome) :
    ((∃ m, (runInvocation path method op ps baseUrl orgId u iso args fo).text
        = errText (toolNameOf op.operationId method path) m) ∨
      (∃ req r,
        buildPhase path method op ps baseUrl orgId u iso args = .ok req ∧
        fo = .resp r ∧ respOk r = true ∧
        (runInvocation path method op ps baseUrl orgId u iso args fo).text
          = normalizeResponse r.body)) ∧
    (∀ r req, fo = .resp r → respOk r = false →
      buildPhase path method op ps baseUrl orgId u iso args = .ok req →
      (runInvocation path method op ps baseUrl orgId u iso args fo).text
        = errText (toolNameOf op.operationId method path)
            (if r.body = "" then "HTTP error " ++ toString r.status
             else r.body)) ∧
    (∀ r, fo = .resp r → respOk r = false →
      ∃ m, (runInvocation path method op ps baseUrl orgId u iso args fo).text
        = errText (toolNameOf op.operationId method path) m) := by
  cases hb : buildPhase path method op ps baseUrl orgId u iso args with
  | error e =>
    refine ⟨Or.inl ⟨e, by simp [runInvocation, hb]⟩, ?_, ?_⟩
    · intro r req _ _ hok
      exact absurd hok (by simp)
    · intro r _ _
      exact ⟨e, by simp [runInvocation, hb]⟩
  | ok req =>
    cases fo with
    | throws m =>
      refine ⟨Or.inl ⟨m, by simp [runInvocation, hb]⟩, ?_, ?_⟩
      · intro r _ hfo
        exact absurd hfo (by simp)
      · intro r hfo
        exact absurd hfo (by simp)
    | resp r =>
      by_cases hok : respOk r = true
      · refine ⟨Or.inr ⟨req, r, rfl, rfl, hok, by simp [runInvocation, hb, hok]⟩,
          ?_, ?_⟩
        · intro r2 req2 hfo hr2 _
          injection hfo with h
          subst h
          rw [hok] at hr2
          exact absurd hr2 (by simp)
        · intro r2 hfo hr2
          injection hfo with h
          subst h
          rw [hok] at hr2
          exact absurd hr2 (by simp)
      · have hokf : respOk r = false := by
          simpa using hok
        refine ⟨Or.inl ⟨(if r.body = "" then "HTTP error " ++ toString r.status
            else r.body), by simp [runInvocation, hb, hokf]⟩, ?_, ?_⟩
        · intro r2 req2 hfo _ _
          injection hfo with h
          subst h
          simp [runInvocation, hb, hokf]
        · intro r2 hfo _
          injection hfo with h
          subst h
          exact ⟨(if r.body = "" then "HTTP error " ++ toString r.status
            else r.body), by simp [runInvocation, hb, hokf]⟩

/-- Witness for C3: a concrete invocation whose fetch returns a 404 with a
non-empty body yields the prefixed failure text. -/
theorem dispatcher_error_capture_witness :
    ∃ m, (runInvocation "/items/\x7bid\x7d" "get"
        ⟨some "getItem", [⟨"id", "path", true, "string", none⟩], none,
          [("200", ⟨false⟩)]⟩
        [("id", Zod.zString)] "http://localhost:9999"
        "8232f2d1-91f2-4d17-9a7e-756dd5dc7544" "u" "t"
        [("id", JsValue.vStr "42")] (.resp ⟨404, "nope"⟩)).text
      = errText (toolNameOf (some "getItem") "get" "/items/\x7bid\x7d") m :=
  (dispatcher_error_capture "/items/\x7bid\x7d" "get"
    ⟨some "getItem", [⟨"id", "path", true, "string", none⟩], none,
      [("200", ⟨false⟩)]⟩
    [("id", Zod.zString)] "http://localhost:9999"
    "8232f2d1-91f2-4d17-9a7e-756dd5dc7544" "u" "t"
    [("id", JsValue.vStr "42")] (.resp ⟨404, "nope"⟩)).2.2
    ⟨404, "nope"⟩ rfl (by decide)

/-! ## Claim C10: operations without a "200" responses entry -/
/-- C10: when the declared responses have no "200" entry, every invocation
of the generated tool fails before any HTTP request is issued: the header
construction dereferences the missing entry (the thrown `TypeError`), the
error is caught, the result is the prefixed error text, and the outcome is
independent of whatever the network would have returned. -/
theorem no_200_fails_before_fetch (path method : String) (op : Operation)
    (ps : List (String × Zod)) (baseUrl orgId u iso : String)
    (args : List (String × JsValue)) (fo fo2 : FetchOutcome)
    (h200 : lookupVal "200" op.responses = none) :
    requestSent path method op ps baseUrl orgId u iso args = none ∧
    (∃ m, (runInvocation path method op ps baseUrl orgId u iso args fo).text
      = errText (toolNameOf op.operationId method path) m) ∧
    runInvocation path method op ps baseUrl orgId u iso args fo
      = runInvocation path method op ps baseUrl orgId u iso args fo2 ∧
    (∀ validated,
      zodParseObject ps (processPlaceholders u iso args) = .ok validated →
      (runInvocation path method op ps baseUrl orgId u iso args fo).text
        = errText (toolNameOf op.operationId method path)
            "Cannot read properties of undefined (reading 'content')") := by
  have hb : ∃ e, buildPhase path method op ps baseUrl orgId u iso args
      = .error e := by
    cases hz : zodParseObject ps (processPlaceholders u iso args) with
    | error e =>
      exact ⟨e, by simp [buildPhase, hz]⟩
    | ok v =>
      refine ⟨"Cannot read properties of undefined (reading 'content')", ?_⟩
      simp [buildPhase, hz, buildHeaders, h200]
  obtain ⟨e, hb⟩ := hb
  refine ⟨by simp [requestSent, hb, Except.toOption], ⟨e, by
    simp [runInvocation, hb]⟩, by simp [runInvocation, hb], ?_⟩
  intro validated hz
  have hbe : buildPhase path method op ps baseUrl orgId u iso args
      = .error "Cannot read properties of undefined (reading 'content')" := by
    simp [buildPhase, hz, buildHeaders, h200]
  simp [runInvocation, hbe]

/-- Witness for C10 at a concrete operation whose responses only declare
"404". -/
theorem no_200_fails_before_fetch_witness :
    requestSent "/items/\x7bid\x7d" "get"
        ⟨some "getItem", [⟨"id", "path", true, "string", none⟩], none,
          [("404", ⟨false⟩)]⟩
        [("id", Zod.zString)] "http://localhost:9999" "org" "u" "t"
        [("id", JsValue.vStr "42")] = none ∧
    (runInvocation "/items/\x7bid\x7d" "get"
        ⟨some "getItem", [⟨"id", "path", true, "string", none⟩], none,
          [("404", ⟨false⟩)]⟩
        [("id", Zod.zString)] "http://localhost:9999" "org" "u" "t"
        [("id", JsValue.vStr "42")] (.resp ⟨200, "ok"⟩)).text
      = errText (toolNameOf (some "getItem") "get" "/items/\x7bid\x7d")
          "Cannot read properties of undefined (reading 'content')" := by
  have h := no_200_fails_before_fetch "/items/\x7bid\x7d" "get"
    ⟨some "getItem", [⟨"id", "path", true, "string", none⟩], none,
      [("404", ⟨false⟩)]⟩
    [("id", Zod.zString)] "http://localhost:9999" "org" "u" "t"
    [("id", JsValue.vStr "42")] (.resp ⟨200, "ok"⟩) (.throws "x") (by decide)
  exact ⟨h.1, h.2.2.2 [("id", JsValue.vStr "42")] rfl⟩

/-! ## Claim C4: request body serialization -/
/-- C4 (amended): whenever the operation declares a request body, the
serialized body is exactly the JSON rendering of ALL validated arguments —
including the ones that were substituted into the path, which the v3
dispatcher does NOT remove — with the `ClientNumber` → `clientNumber`
renaming applied whenever that key is present (and no renaming
otherwise). -/
theorem request_body_serialization (path method : String) (op : Operation)
    (ps : List (String × Zod)) (baseUrl orgId u iso : String)
    (args : List (String × JsValue)) (req : HttpRequest)
    (hbody : op.requestBody.isSome = true)
    (hbp : buildPhase path method op ps baseUrl orgId u iso args = .ok req) :
    ∃ validated,
      zodParseObject ps (processPlaceholders u iso args) = .ok validated ∧
      req.body = some (jsonStringify (remapClientNumber validated)) ∧
      (lookupVal "ClientNumber" validated = none →
        remapClientNumber validated = validated) := by
  cases hz : zodParseObject ps (processPlaceholders u iso args) with
  | error e =>
    rw [show buildPhase path method op ps baseUrl orgId u iso args
      = .error e by simp [buildPhase, hz]] at hbp
    exact absurd hbp (by simp)
  | ok v =>
    refine ⟨v, rfl, ?_, ?_⟩
    · simp only [buildPhase, hz] at hbp
      cases hh : buildHeaders op orgId
          (String.mk (substPathParams path.toList v (hawksoftFix path).toList))
        with
      | error e2 =>
        rw [hh] at hbp
        exact absurd hbp (by simp)
      | ok hs =>
        rw [hh] at hbp
        simp only [Except.ok.injEq] at hbp
        rw [← hbp]
        simp [hbody]
    · intro hcn
      simp [remapClientNumber, hcn]

/-- Witness for C4 at a concrete POST operation with one path parameter
and one body field. -/
theorem request_body_serialization_witness :
    ∃ validated,
      zodParseObject [("id", Zod.zString), ("note", Zod.zString)]
        (processPlaceholders "u" "t"
          [("id", JsValue.vStr "42"), ("note", JsValue.vStr "x")])
        = .ok validated ∧
      (HttpRequest.mk "POST" "http://localhost:9999/items/42"
        [("Content-Type", "application/json"),
         ("Accept", "application/json")]
        (some "\x7b\"id\":\"42\",\"note\":\"x\"\x7d")).body
        = some (jsonStringify (remapClientNumber validated)) ∧
      (lookupVal "ClientNumber" validated = none →
        remapClientNumber validated = validated) :=
  request_body_serialization "/items/\x7bid\x7d" "post"
    ⟨some "createItem", [⟨"id", "path", true, "string", none⟩],
      some ⟨some "#/components/schemas/Body"⟩, [("200", ⟨true⟩)]⟩
    [("id", Zod.zString), ("note", Zod.zString)]
    "http://localhost:9999" "org" "u" "t"
    [("id", JsValue.vStr "42"), ("note", JsValue.vStr "x")]
    (HttpRequest.mk "POST" "http://localhost:9999/items/42"
      [("Content-Type", "application/json"),
       ("Accept", "application/json")]
      (some "\x7b\"id\":\"42\",\"note\":\"x\"\x7d"))
    rfl rfl

/-- C4 counterexample: for a concrete operation with path parameter `id`
and declared body schema requiring `note`, the issued body is
`\x7b"id":"42","note":"x"\x7d` — the path-substituted argument `id` is NOT
removed — whereas the claim prescribes the residual body
`\x7b"note":"x"\x7d`. -/
theorem body_keeps_path_params :
    buildParamSchema
      ⟨some "createItem", [⟨"id", "path", true, "string", none⟩],
        some ⟨some "#/components/schemas/Body"⟩, [("200", ⟨true⟩)]⟩
      [("Body", ⟨none, some ["note"],
        some [("note", ⟨some "string", none, none, none⟩)], none⟩)]
      = .ok [("id", Zod.zString), ("note", Zod.zString)] ∧
    (∃ req,
      buildPhase "/items/\x7bid\x7d" "post"
        ⟨some "createItem", [⟨"id", "path", true, "string", none⟩],
          some ⟨some "#/components/schemas/Body"⟩, [("200", ⟨true⟩)]⟩
        [("id", Zod.zString), ("note", Zod.zString)]
        "http://localhost:9999" "org" "u" "t"
        [("id", JsValue.vStr "42"), ("note", JsValue.vStr "x")] = .ok req ∧
      req.url = "http://localhost:9999/items/42" ∧
      req.body = some "\x7b\"id\":\"42\",\"note\":\"x\"\x7d") ∧
    jsonStringify [("note", JsValue.vStr "x")] = "\x7b\"note\":\"x\"\x7d" ∧
    ("\x7b\"id\":\"42\",\"note\":\"x\"\x7d" : String) ≠ "\x7b\"note\":\"x\"\x7d" := by
  refine ⟨rfl, ⟨_, rfl, rfl, rfl⟩, rfl, by decide⟩

/-! ## Claim C9: query-location parameters contribute nothing -/
theorem foldl_filter_noop {α β : Type _} (f : β → α → β) (Q : α → Bool) :
    ∀ (l : List α), (∀ acc a, a ∈ l → Q a = false → f acc a = acc) →
      ∀ init, (l.filter Q).foldl f init = l.foldl f init
  | [], _, _ => rfl
  | a :: t, h, init => by
    by_cases hq : Q a = true
    · rw [List.filter_cons, if_pos (by simp [hq]), List.foldl_cons,
        List.foldl_cons]
      exact foldl_filter_noop f Q t
        (fun acc b hb hqb => h acc b (by simp [hb]) hqb) (f init a)
    · have hqf : Q a = false := by simpa using hq
      rw [List.filter_cons, if_neg (by simp [hqf]), List.foldl_cons,
        h init a (by simp) hqf]
      exact foldl_filter_noop f Q t
        (fun acc b hb hqb => h acc b (by simp [hb]) hqb) init

theorem zodParseObject_keys :
    ∀ (sch : List (String × Zod)) (as out : List (String × JsValue)),
      zodParseObject sch as = .ok out → ∀ k, k ∈ objKeys out → k ∈ objKeys sch
  | [], as, out, h, k, hk => by
    simp only [zodParseObject, Except.ok.injEq] at h
    subst h
    simp [objKeys] at hk
  | (k0, z) :: tl, as, out, h, k, hk => by
    cases hlv : lookupVal k0 as with
    | some v =>
      simp only [zodParseObject, hlv] at h
      by_cases hacc : zodAccepts z v = true
      · rw [if_pos hacc] at h
        cases hrec : zodParseObject tl as with
        | ok out0 =>
          rw [hrec] at h
          simp only [Except.ok.injEq] at h
          subst h
          simp only [objKeys, List.map_cons, List.mem_cons] at hk ⊢
          rcases hk with hk | hk
          · exact Or.inl hk
          · exact Or.inr (zodParseObject_keys tl as out0 hrec k hk)
        | error e =>
          rw [hrec] at h
          exact absurd h (by simp)
      · rw [if_neg hacc] at h
        exact absurd h (by simp)
    | none =>
      simp only [zodParseObject, hlv] at h
      by_cases hopt : z.isOpt = true
      · rw [if_pos hopt] at h
        have hmem := zodParseObject_keys tl as out h k hk
        simp only [objKeys, List.map_cons, List.mem_cons]
        simp only [objKeys] at hmem
        exact Or.inr hmem
      · rw [if_neg hopt] at h
        exact absurd h (by simp)

theorem buildHeaders_eraseQuery (op : Operation) (orgId fp : String) :
    buildHeaders (opEraseQuery op) orgId fp = buildHeaders op orgId fp := by
  have hfold : ∀ init : List (String × String),
      (op.parameters.filter (fun p => p.loc != "query")).foldl
        (fun hs p =>
          if p.loc = "header" ∧ p.required = true ∧ p.name = "X-Org-Id"
          then objInsert p.name orgId hs else hs) init
      = op.parameters.foldl
        (fun hs p =>
          if p.loc = "header" ∧ p.required = true ∧ p.name = "X-Org-Id"
          then objInsert p.name orgId hs else hs) init := by
    intro init
    apply foldl_filter_noop
    intro acc p _ hq
    have hploc : p.loc = "query" := by
      simpa [bne] using hq
    rw [if_neg]
    intro hcontra
    rw [hploc] at hcontra
    exact absurd hcontra.1 (by decide)
  unfold buildHeaders opEraseQuery
  simp only [hfold]

/-- C9: parameters declared with location `query` contribute nothing:
removing them changes neither the generated input-validator set nor any
observable of an invocation (URL, headers, body, result); and validation
strips every supplied argument whose key is not among the schema keys, so
such values never reach the outbound request. -/
theorem query_params_contribute_nothing (op : Operation)
    (schemas : List (String × SchemaObject)) (path method : String)
    (ps : List (String × Zod)) (baseUrl orgId u iso : String)
    (args : List (String × JsValue)) (fo : FetchOutcome) :
    buildParamSchema (opEraseQuery op) schemas = buildParamSchema op schemas ∧
    runInvocation path method (opEraseQuery op) ps baseUrl orgId u iso args fo
      = runInvocation path method op ps baseUrl orgId u iso args fo ∧
    (∀ out k, zodParseObject ps (processPlaceholders u iso args) = .ok out →
      k ∈ objKeys out → k ∈ objKeys ps) := by
  have hschema : buildParamSchema (opEraseQuery op) schemas
      = buildParamSchema op schemas := by
    have hfold : ∀ init : List (String × Zod),
        (op.parameters.filter (fun p => p.loc != "query")).foldl
          (fun acc p =>
            if p.loc = "path"
            then objInsert p.name (getZodSchemaForParameter p) acc else acc) init
        = op.parameters.foldl
          (fun acc p =>
            if p.loc = "path"
            then objInsert p.name (getZodSchemaForParameter p) acc else acc)
          init := by
      intro init
      apply foldl_filter_noop
      intro acc p _ hq
      have hploc : p.loc = "query" := by
        simpa [bne] using hq
      rw [if_neg]
      rw [hploc]
      decide
    unfold buildParamSchema opEraseQuery
    simp only [hfold]
  have hrb : (opEraseQuery op).requestBody = op.requestBody := rfl
  have hoid : (opEraseQuery op).operationId = op.operationId := rfl
  have hbp : buildPhase path method (opEraseQuery op) ps baseUrl orgId u iso
      args = buildPhase path method op ps baseUrl orgId u iso args := by
    cases hz : zodParseObject ps (processPlaceholders u iso args) with
    | error e => simp [buildPhase, hz]
    | ok v => simp only [buildPhase, hz, buildHeaders_eraseQuery, hrb]
  refine ⟨hschema, ?_, fun out k h hk => zodParseObject_keys ps _ out h k hk⟩
  unfold runInvocation
  rw [hbp, hoid]

/-- Witness for C9: a supplied argument under a key absent from the schema
("b") is stripped by validation, and keys of the validated output are
schema keys. -/
theorem query_params_contribute_nothing_witness :
    "a" ∈ objKeys [("a", Zod.zString)] := by
  have h := query_params_contribute_nothing
    ⟨some "op1", [], none, [("200", ⟨false⟩)]⟩ [] "/p" "get"
    [("a", Zod.zString)] "b" "o" "u" "t"
    [("a", JsValue.vStr "1"), ("b", JsValue.vStr "2")] (.throws "x")
  exact h.2.2 [("a", JsValue.vStr "1")] "a" rfl (by decide)

theorem renderT_nil : renderT [] = [] := rfl

theorem renderT_cons (s : Seg) (t : List Seg) :
    renderT (s :: t) = renderSeg s ++ renderT t := by
  simp [renderT]

theorem renderT_append (a b : List Seg) :
    renderT (a ++ b) = renderT a ++ renderT b := by
  simp [renderT]

theorem containsSub_iff : ∀ (s pat : List Char),
    containsSub s pat = true ↔ pat <:+: s := by
  intro s
  induction s with
  | nil =>
    intro pat
    constructor
    · intro h
      simp only [containsSub, List.isEmpty_iff] at h
      subst h
      exact List.nil_infix
    · intro h
      obtain ⟨a, b, hab⟩ := h
      have h1 := List.append_eq_nil.1 hab
      have h2 := List.append_eq_nil.1 h1.1
      simp [containsSub, h2.2, List.isEmpty_iff]
  | cons c rest ih =>
    intro pat
    simp only [containsSub, Bool.or_eq_true, List.isPrefixOf_iff_prefix, ih]
    rw [List.infix_cons_iff]

theorem infix_of_infix_append (pat c r : List Char) (h : pat <:+: r) :
    pat <:+: (c ++ r) := by
  obtain ⟨a, b, hab⟩ := h
  exact ⟨c ++ a, b, by rw [← hab]; simp⟩

/-- The percent-encoded form of any string contains no brace. -/
theorem encodeURIComponent_noBrace (s : String) :
    noBrace (encodeURIComponent s).toList := by
  have hpct : ∀ c : Char, noBrace (pctEncodeChar c) := by
    intro c
    unfold pctEncodeChar
    induction utf8Bytes c with
    | nil => intro ch hch; cases hch
    | cons b bs ih =>
      intro ch hch
      simp only [List.foldr_cons, List.mem_cons] at hch
      have hhex : ∀ x : Nat, hexUpper (x % 16) ≠ lb ∧ hexUpper (x % 16) ≠ rb := by
        intro x
        have hx : x % 16 < 16 := Nat.mod_lt _ (by norm_num)
        have hall : ∀ k : Fin 16, hexUpper k.val ≠ lb ∧ hexUpper k.val ≠ rb := by
          decide
        simpa using hall ⟨x % 16, hx⟩
      rcases hch with hch | hch | hch | hch
      · subst hch; exact ⟨by decide, by decide⟩
      · subst hch; exact hhex (b / 16)
      · subst hch; exact hhex b
      · exact ih ch hch
  show noBrace (s.toList.foldr
    (fun c acc => (if isUriUnreserved c then [c] else pctEncodeChar c) ++ acc) [])
  induction s.toList with
  | nil => intro ch hch; cases hch
  | cons c t ih =>
    intro ch hch
    simp only [List.foldr_cons, List.mem_append] at hch
    rcases hch with hch | hch
    · by_cases hu : isUriUnreserved c = true
      · rw [if_pos hu] at hch
        simp only [List.mem_singleton] at hch
        subst hch
        constructor
        · intro hcl; rw [hcl] at hu; exact absurd hu (by decide)
        · intro hcr; rw [hcr] at hu; exact absurd hu (by decide)
      · rw [if_neg hu] at hch
        exact hpct c ch hch
    · exact ih ch hch

theorem noRb_prefix_eq : ∀ (x y r : List Char),
    (∀ c ∈ x, c ≠ rb) → (∀ c ∈ y, c ≠ rb) →
    (x ++ [rb]) <+: (y ++ rb :: r) → x = y
  | [], y, r, _, hy, h => by
    cases y with
    | nil => rfl
    | cons c y2 =>
      exfalso
      have hh : rb :: ([] : List Char) <+: c :: (y2 ++ rb :: r) := by
        simpa using h
      have := (List.cons_prefix_cons.1 hh).1
      exact absurd this.symm (hy c (by simp))
  | a :: x2, y, r, hx, hy, h => by
    cases y with
    | nil =>
      exfalso
      have hh : a :: (x2 ++ [rb]) <+: rb :: r := by
        simpa using h
      have := (List.cons_prefix_cons.1 hh).1
      exact absurd this (hx a (by simp))
    | cons c y2 =>
      have hh : a :: (x2 ++ [rb]) <+: c :: (y2 ++ rb :: r) := by
        simpa using h
      have h2 := List.cons_prefix_cons.1 hh
      have hrec := noRb_prefix_eq x2 y2 r
        (fun ch hch => hx ch (by simp [hch]))
        (fun ch hch => hy ch (by simp [hch])) h2.2
      rw [h2.1, hrec]

theorem infix_append_left_noLb : ∀ (c : List Char), (∀ ch ∈ c, ch ≠ lb) →
    ∀ (xs r : List Char), ((lb :: xs) <:+: (c ++ r) ↔ (lb :: xs) <:+: r)
  | [], _, xs, r => by simp
  | ch :: c2, hc, xs, r => by
    constructor
    · intro h
      rw [List.cons_append, List.infix_cons_iff] at h
      rcases h with h | h
      · exfalso
        have := (List.cons_prefix_cons.1 h).1
        exact absurd this.symm (hc ch (by simp))
      · exact (infix_append_left_noLb c2
          (fun a ha => hc a (by simp [ha])) xs r).1 h
    · intro h
      exact infix_of_infix_append _ _ _ h

theorem paramNames_mem : ∀ (segs : List Seg) (k : String),
    k ∈ paramNames segs ↔ Seg.param k ∈ segs
  | [], k => by simp [paramNames]
  | .lit c :: t, k => by
    simp only [paramNames, List.mem_cons]
    rw [paramNames_mem t k]
    constructor
    · exact fun h => Or.inr h
    · intro h
      rcases h with h | h
      · exact absurd h (by simp)
      · exact h
  | .param z :: t, k => by
    simp only [paramNames, List.mem_cons]
    rw [paramNames_mem t k]
    constructor
    · intro h
      rcases h with h | h
      · exact Or.inl (by rw [h])
      · exact Or.inr h
    · intro h
      rcases h with h | h
      · injection h with h2
        exact Or.inl h2
      · exact Or.inr h

theorem braceWrap_eq (x : String) : braceWrap x = lb :: (x.toList ++ [rb]) := rfl

theorem braceWrap_not_infix : ∀ (segs : List Seg) (x : String),
    (∀ s ∈ segs, segWf s) → x ∉ paramNames segs → noBrace x.toList →
    ¬ braceWrap x <:+: renderT segs
  | [], x, _, _, _ => by
    intro h
    rw [renderT_nil] at h
    obtain ⟨a, b, hab⟩ := h
    have h1 := List.append_eq_nil.1 hab
    have h2 := List.append_eq_nil.1 h1.1
    exact absurd h2.2 (by simp [braceWrap])
  | .lit c :: t, x, hwf, hx, hxn => by
    intro h
    rw [renderT_cons] at h
    have hc : ∀ ch ∈ c, ch ≠ lb := by
      intro ch hch
      exact ((hwf (Seg.lit c) (by simp)) ch hch).1
    rw [show renderSeg (.lit c) = c from rfl, braceWrap_eq] at h
    have h2 := (infix_append_left_noLb c hc _ _).1 h
    rw [← braceWrap_eq] at h2
    exact braceWrap_not_infix t x (fun s hs => hwf s (by simp [hs]))
      (by simpa [paramNames] using hx) hxn h2
  | .param z :: t, x, hwf, hx, hxn => by
    intro h
    rw [renderT_cons] at h
    have hz : noBrace z.toList := hwf (Seg.param z) (by simp)
    have hassoc : renderSeg (.param z) ++ renderT t
        = lb :: (z.toList ++ (rb :: renderT t)) := by
      show braceWrap z ++ renderT t = _
      rw [braceWrap_eq]
      simp
    rw [hassoc, braceWrap_eq, List.infix_cons_iff] at h
    rcases h with h | h
    · have h2 := (List.cons_prefix_cons.1 h).2
      have hd : x.toList ++ [rb] <+: z.toList ++ rb :: renderT t := h2
      have hxz := noRb_prefix_eq x.toList z.toList (renderT t)
        (fun c hc => (hxn c hc).2) (fun c hc => (hz c hc).2) hd
      have hxz2 : x = z := by
        cases x with
        | mk xd =>
          cases z with
          | mk zd =>
            have : xd = zd := hxz
            rw [this]
      exact hx (by rw [hxz2]; simp [paramNames])
    · have h2 := (infix_append_left_noLb z.toList
        (fun c hc => (hz c hc).1) _ _).1 h
      rw [List.infix_cons_iff] at h2
      rcases h2 with h2 | h2
      · have := (List.cons_prefix_cons.1 h2).1
        exact absurd this (by decide)
      · rw [← braceWrap_eq] at h2
        exact braceWrap_not_infix t x (fun s hs => hwf s (by simp [hs]))
          (fun hmem => hx (by simp [paramNames, hmem])) hxn h2

theorem braceWrap_infix_of_mem : ∀ (segs : List Seg) (x : String),
    Seg.param x ∈ segs → braceWrap x <:+: renderT segs
  | [], x, hmem => absurd hmem (by simp)
  | .lit c :: t, x, hmem => by
    rcases List.mem_cons.1 hmem with h | h
    · exact absurd h (by simp)
    · rw [renderT_cons]
      exact infix_of_infix_append _ _ _ (braceWrap_infix_of_mem t x h)
  | .param z :: t, x, hmem => by
    rcases List.mem_cons.1 hmem with h | h
    · injection h with h2
      subst h2
      rw [renderT_cons]
      exact ⟨[], renderT t, by simp [renderSeg]⟩
    · rw [renderT_cons]
      exact infix_of_infix_append _ _ _ (braceWrap_infix_of_mem t x h)

theorem containsSub_renderT (segs : List Seg) (hwf : ∀ s ∈ segs, segWf s)
    (k : String) (hk : noBrace k.toList) :
    (containsSub (renderT segs) (braceWrap k) = true) ↔ Seg.param k ∈ segs := by
  rw [containsSub_iff]
  constructor
  · intro h
    by_contra hmem
    have hnames : k ∉ paramNames segs := by
      rw [paramNames_mem]
      exact hmem
    exact braceWrap_not_infix segs k hwf hnames hk h
  · exact braceWrap_infix_of_mem segs k

theorem replaceFirstL_append_noLb : ∀ (c : List Char), (∀ ch ∈ c, ch ≠ lb) →
    ∀ (r xs rep : List Char),
      replaceFirstL (c ++ r) (lb :: xs) rep
        = c ++ replaceFirstL r (lb :: xs) rep
  | [], _, r, xs, rep => by simp
  | ch :: c2, hc, r, xs, rep => by
    rw [List.cons_append]
    have hne : (lb == ch) = false := by
      have hch : ch ≠ lb := hc ch (by simp)
      simp [beq_eq_false_iff_ne]
      exact fun hcontra => absurd hcontra.symm hch
    have hpre : (lb :: xs).isPrefixOf (ch :: (c2 ++ r)) = false := by
      simp [List.isPrefixOf, hne]
    have heq : replaceFirstL (ch :: (c2 ++ r)) (lb :: xs) rep
        = ch :: replaceFirstL (c2 ++ r) (lb :: xs) rep := by
      simp only [replaceFirstL, hpre, Bool.false_eq_true, if_false]
    rw [heq, replaceFirstL_append_noLb c2 (fun a ha => hc a (by simp [ha])) r xs rep]
    rfl

theorem replaceFirstL_match (p0 : Char) (ptail r rep : List Char) :
    replaceFirstL ((p0 :: ptail) ++ r) (p0 :: ptail) rep = rep ++ r := by
  rw [List.cons_append]
  have hpre : (p0 :: ptail).isPrefixOf (p0 :: (ptail ++ r)) = true := by
    rw [List.isPrefixOf_iff_prefix]
    exact ⟨r, by simp⟩
  simp only [replaceFirstL, hpre, if_true]
  congr 1
  rw [show p0 :: (ptail ++ r) = (p0 :: ptail) ++ r by simp]
  rw [List.drop_left]

theorem replaceFirstL_param_skip (z y : String) (hzy : z ≠ y)
    (hz : noBrace z.toList) (hy : noBrace y.toList) (r rep : List Char) :
    replaceFirstL (braceWrap z ++ r) (braceWrap y) rep
      = braceWrap z ++ replaceFirstL r (braceWrap y) rep := by
  have hshape : braceWrap z ++ r = lb :: (z.toList ++ (rb :: r)) := by
    rw [braceWrap_eq]
    simp
  rw [hshape, show braceWrap y = lb :: (y.toList ++ [rb]) from rfl]
  have hpre : (lb :: (y.toList ++ [rb])).isPrefixOf
      (lb :: (z.toList ++ (rb :: r))) = false := by
    by_contra hcontra
    have htrue : (lb :: (y.toList ++ [rb])).isPrefixOf
        (lb :: (z.toList ++ (rb :: r))) = true := by
      simpa using hcontra
    rw [List.isPrefixOf_iff_prefix] at htrue
    have h2 := (List.cons_prefix_cons.1 htrue).2
    have hyz := noRb_prefix_eq y.toList z.toList r
      (fun c hc => (hy c hc).2) (fun c hc => (hz c hc).2) h2
    have hyz2 : y = z := by
      cases y with
      | mk yd =>
        cases z with
        | mk zd =>
          have : yd = zd := hyz
          rw [this]
    exact hzy hyz2.symm
  have hstep : replaceFirstL (lb :: (z.toList ++ (rb :: r)))
      (lb :: (y.toList ++ [rb])) rep
      = lb :: replaceFirstL (z.toList ++ (rb :: r))
          (lb :: (y.toList ++ [rb])) rep := by
    simp only [replaceFirstL, hpre, Bool.false_eq_true, if_false]
  rw [hstep]
  rw [replaceFirstL_append_noLb z.toList (fun c hc => (hz c hc).1)]
  have hrbstep : replaceFirstL (rb :: r) (lb :: (y.toList ++ [rb])) rep
      = rb :: replaceFirstL r (lb :: (y.toList ++ [rb])) rep := by
    have hpre2 : (lb :: (y.toList ++ [rb])).isPrefixOf (rb :: r) = false := by
      have hne : (lb == rb) = false := by decide
      simp [List.isPrefixOf, hne]
    simp only [replaceFirstL, hpre2, Bool.false_eq_true, if_false]
  rw [hrbstep, braceWrap_eq]
  simp

theorem replaceFirstL_skip_render (x : String) (hx : noBrace x.toList)
    (rep : List Char) :
    ∀ (pre : List Seg), (∀ s ∈ pre, skipOk x s) → ∀ (tail : List Char),
      replaceFirstL (renderT pre ++ tail) (braceWrap x) rep
        = renderT pre ++ replaceFirstL tail (braceWrap x) rep
  | [], _, tail => by simp [renderT_nil]
  | .lit c :: t, hok, tail => by
    rw [renderT_cons, show renderSeg (.lit c) = c from rfl, List.append_assoc]
    have hc : ∀ ch ∈ c, ch ≠ lb := hok (.lit c) (by simp)
    rw [show braceWrap x = lb :: (x.toList ++ [rb]) from rfl]
    rw [replaceFirstL_append_noLb c hc]
    rw [show lb :: (x.toList ++ [rb]) = braceWrap x from rfl]
    rw [replaceFirstL_skip_render x hx rep t (fun s hs => hok s (by simp [hs]))
      tail]
    simp
  | .param z :: t, hok, tail => by
    rw [renderT_cons, show renderSeg (.param z) = braceWrap z from rfl,
      List.append_assoc]
    obtain ⟨hzx, hz⟩ := hok (.param z) (by simp)
    rw [replaceFirstL_param_skip z x hzx hz hx]
    rw [replaceFirstL_skip_render x hx rep t (fun s hs => hok s (by simp [hs]))
      tail]
    simp

theorem lookupVal_append_of_ne (n k : String) (hnk : n ≠ k) (v : JsValue) :
    ∀ (l : List (String × JsValue)),
      lookupVal n (l ++ [(k, v)]) = lookupVal n l
  | [] => by
    show lookupVal n [(k, v)] = none
    simp only [lookupVal]
    rw [if_neg (fun h => hnk h.symm)]
  | (k2, v2) :: t => by
    by_cases h : k2 = n
    · simp [lookupVal, h]
    · simp only [List.cons_append, lookupVal, h, if_false]
      exact lookupVal_append_of_ne n k hnk v t

theorem lookupVal_append_self (k : String) (v : JsValue) :
    ∀ (l : List (String × JsValue)), lookupVal k l = none →
      lookupVal k (l ++ [(k, v)]) = some v
  | [], _ => by simp [lookupVal]
  | (k2, v2) :: t, h => by
    by_cases h2 : k2 = k
    · rw [show lookupVal k ((k2, v2) :: t) = some v2 by simp [lookupVal, h2]]
        at h
      exact absurd h (by simp)
    · simp only [List.cons_append, lookupVal, h2, if_false]
      apply lookupVal_append_self
      simpa [lookupVal, h2] using h

theorem lookupVal_none_of_not_mem (k : String) :
    ∀ (l : List (String × JsValue)), k ∉ l.map Prod.fst →
      lookupVal k l = none
  | [], _ => rfl
  | (k2, v2) :: t, h => by
    have h2 : ¬ k2 = k := by
      intro hc
      exact h (by simp [hc])
    simp only [lookupVal, h2, if_false]
    exact lookupVal_none_of_not_mem k t (fun hc => h (by simp [hc]))

theorem lookupVal_of_mem_nodup (x : String) (v : JsValue) :
    ∀ (args : List (String × JsValue)), (x, v) ∈ args →
      (args.map Prod.fst).Nodup → lookupVal x args = some v
  | [], hmem, _ => absurd hmem (by simp)
  | (k2, v2) :: t, hmem, hnd => by
    simp only [List.map_cons, List.nodup_cons] at hnd
    rcases List.mem_cons.1 hmem with h | h
    · injection h with h1 h2
      simp [lookupVal, h1, h2]
    · have hx : ¬ k2 = x := by
        intro hc
        subst hc
        exact hnd.1 (by simpa using List.mem_map_of_mem Prod.fst h)
      simp only [lookupVal, hx, if_false]
      exact lookupVal_of_mem_nodup x v t h hnd.2

theorem substSeg_extend (segs : List Seg) (done : List (String × JsValue))
    (k : String) (v : JsValue) (h : ∀ n ∈ paramNames segs, n ≠ k) :
    segs.map (substSeg (done ++ [(k, v)])) = segs.map (substSeg done) := by
  apply List.map_congr_left
  intro s hs
  cases s with
  | lit c => rfl
  | param n =>
    have hn : n ≠ k := h n ((paramNames_mem segs n).2 hs)
    simp [substSeg, lookupVal_append_of_ne n k hn v done]

theorem substSeg_nil (segs : List Seg) : segs.map (substSeg []) = segs := by
  have hid : ∀ s : Seg, substSeg [] s = s := by
    intro s
    cases s <;> rfl
  calc segs.map (substSeg [])
      = segs.map id := List.map_congr_left (fun s _ => hid s)
    _ = segs := List.map_id segs

theorem paramNames_append : ∀ (a b : List Seg),
    paramNames (a ++ b) = paramNames a ++ paramNames b
  | [], b => rfl
  | .lit c :: t, b => by
    simp only [List.cons_append, paramNames]
    exact paramNames_append t b
  | .param z :: t, b => by
    simp only [List.cons_append, paramNames]
    exact congrArg (List.cons z) (paramNames_append t b)

theorem mem_param_split (segs : List Seg) (k : String)
    (hmem : Seg.param k ∈ segs) (hnd : (paramNames segs).Nodup) :
    ∃ pre post, segs = pre ++ .param k :: post ∧
      Seg.param k ∉ pre ∧ Seg.param k ∉ post := by
  obtain ⟨pre, post, rfl⟩ := List.append_of_mem hmem
  refine ⟨pre, post, rfl, ?_, ?_⟩
  · intro hc
    have h1 : k ∈ paramNames pre := (paramNames_mem pre k).2 hc
    have h2 : k ∈ paramNames (.param k :: post) := by simp [paramNames]
    rw [paramNames_append] at hnd
    exact (List.disjoint_of_nodup_append hnd) h1 h2
  · intro hc
    have h1 : k ∈ paramNames post := (paramNames_mem post k).2 hc
    rw [paramNames_append] at hnd
    have h2 := (List.nodup_append.1 hnd).2.1
    simp only [paramNames, List.nodup_cons] at h2
    exact h2.1 h1

theorem substPathParams_invariant (segs : List Seg) (hwf : wfT segs)
    (prefixChars : List Char) (hpre : ∀ c ∈ prefixChars, c ≠ lb) :
    ∀ (args done : List (String × JsValue)),
      ((done ++ args).map Prod.fst).Nodup →
      (∀ kv ∈ args, noBrace kv.1.toList) →
      substPathParams (renderT segs) args
          (prefixChars ++ renderT (segs.map (substSeg done)))
        = prefixChars ++ renderT (segs.map (substSeg (done ++ args)))
  | [], done, _, _ => by simp [substPathParams]
  | (k, v) :: rest, done, hnd, hkeys => by
    have hk : noBrace k.toList := hkeys (k, v) (by simp)
    by_cases hmem : Seg.param k ∈ segs
    · have hguard : containsSub (renderT segs) (braceWrap k) = true :=
        (containsSub_renderT segs hwf.1 k hk).2 hmem
      have hknotdone : k ∉ done.map Prod.fst := by
        intro hc
        rw [List.map_append] at hnd
        exact (List.disjoint_of_nodup_append hnd) hc (by simp)
      have hlookdone : lookupVal k done = none :=
        lookupVal_none_of_not_mem k done hknotdone
      obtain ⟨pre, post, hsplit, hkpre, hkpost⟩ :=
        mem_param_split segs k hmem hwf.2
      have hcur : segs.map (substSeg done)
          = pre.map (substSeg done) ++ .param k :: post.map (substSeg done) := by
        rw [hsplit, List.map_append, List.map_cons]
        rw [show substSeg done (.param k) = .param k by
          simp [substSeg, hlookdone]]
      have hskip : ∀ s ∈ pre.map (substSeg done), skipOk k s := by
        intro s hs
        obtain ⟨s0, hs0, rfl⟩ := List.mem_map.1 hs
        have hs0segs : s0 ∈ segs := by
          rw [hsplit]
          exact List.mem_append_left _ hs0
        have hwf0 := hwf.1 s0 hs0segs
        cases s0 with
        | lit c =>
          intro ch hch
          exact (hwf0 ch hch).1
        | param n =>
          cases hl : lookupVal n done with
          | some v0 =>
            simp only [substSeg, hl]
            intro ch hch
            exact (encodeURIComponent_noBrace (jsString v0) ch hch).1
          | none =>
            simp only [substSeg, hl]
            refine ⟨?_, hwf0⟩
            intro hc
            subst hc
            exact hkpre hs0
      have hrender : prefixChars ++ renderT (segs.map (substSeg done))
          = prefixChars ++ (renderT (pre.map (substSeg done))
              ++ (braceWrap k ++ renderT (post.map (substSeg done)))) := by
        rw [hcur, renderT_append, renderT_cons,
          show renderSeg (.param k) = braceWrap k from rfl]
      have hrepl : replaceFirstL
          (prefixChars ++ renderT (segs.map (substSeg done))) (braceWrap k)
          (encodeURIComponent (jsString v)).toList
          = prefixChars ++ (renderT (pre.map (substSeg done))
              ++ ((encodeURIComponent (jsString v)).toList
                ++ renderT (post.map (substSeg done)))) := by
        rw [hrender]
        rw [show braceWrap k = lb :: (k.toList ++ [rb]) from rfl]
        rw [replaceFirstL_append_noLb prefixChars hpre]
        rw [show lb :: (k.toList ++ [rb]) = braceWrap k from rfl]
        rw [replaceFirstL_skip_render k hk _ (pre.map (substSeg done)) hskip]
        rw [show braceWrap k ++ renderT (post.map (substSeg done))
            = (lb :: (k.toList ++ [rb])) ++ renderT (post.map (substSeg done))
          from rfl]
        rw [show braceWrap k = lb :: (k.toList ++ [rb]) from rfl]
        rw [replaceFirstL_match]
      have hextpre : pre.map (substSeg (done ++ [(k, v)]))
          = pre.map (substSeg done) := by
        apply substSeg_extend
        intro n hn hc
        rw [hc] at hn
        exact hkpre ((paramNames_mem pre k).1 hn)
      have hextpost : post.map (substSeg (done ++ [(k, v)]))
          = post.map (substSeg done) := by
        apply substSeg_extend
        intro n hn hc
        rw [hc] at hn
        exact hkpost ((paramNames_mem post k).1 hn)
      have hsubk : substSeg (done ++ [(k, v)]) (.param k)
          = .lit (encodeURIComponent (jsString v)).toList := by
        simp [substSeg, lookupVal_append_self k v done hlookdone]
      have hnewmap : segs.map (substSeg (done ++ [(k, v)]))
          = pre.map (substSeg done)
            ++ .lit (encodeURIComponent (jsString v)).toList
              :: post.map (substSeg done) := by
        rw [hsplit, List.map_append, List.map_cons, hextpre, hextpost, hsubk]
      have hrec := substPathParams_invariant segs hwf prefixChars hpre rest
        (done ++ [(k, v)])
        (by rw [List.append_assoc]; exact hnd)
        (fun kv hkv => hkeys kv (by simp [hkv]))
      simp only [substPathParams, List.foldl_cons]
      rw [if_pos hguard, hrepl]
      have hform : prefixChars ++ (renderT (pre.map (substSeg done))
          ++ ((encodeURIComponent (jsString v)).toList
            ++ renderT (post.map (substSeg done))))
          = prefixChars ++ renderT (segs.map (substSeg (done ++ [(k, v)]))) := by
        rw [hnewmap, renderT_append, renderT_cons,
          show renderSeg (.lit (encodeURIComponent (jsString v)).toList)
            = (encodeURIComponent (jsString v)).toList from rfl]
      rw [hform]
      simp only [substPathParams] at hrec
      rw [hrec]
      rw [List.append_assoc]
      rfl
    · have hguard : containsSub (renderT segs) (braceWrap k) = false := by
        by_contra hc
        have hc2 : containsSub (renderT segs) (braceWrap k) = true := by
          simpa using hc
        exact hmem ((containsSub_renderT segs hwf.1 k hk).1 hc2)
      have hext : segs.map (substSeg (done ++ [(k, v)]))
          = segs.map (substSeg done) := by
        apply substSeg_extend
        intro n hn hc
        rw [hc] at hn
        exact hmem ((paramNames_mem segs k).1 hn)
      have hrec := substPathParams_invariant segs hwf prefixChars hpre rest
        (done ++ [(k, v)])
        (by rw [List.append_assoc]; exact hnd)
        (fun kv hkv => hkeys kv (by simp [hkv]))
      rw [hext] at hrec
      simp only [substPathParams, List.foldl_cons]
      rw [if_neg (by simp [hguard])]
      simp only [substPathParams] at hrec
      rw [hrec]
      rw [List.append_assoc]
      rfl

/-- C5 (amended): over a well-formed path template — brace-free literal
segments alternating with `\x7bname\x7d` parameter segments whose brace-free
names are pairwise distinct — an invocation whose validated arguments have
distinct brace-free keys and supply a value for parameter `x` yields a
final path that is exactly the template with every supplied parameter
segment replaced by its percent-encoded value: the unique `x` segment
(count 1) becomes the percent-encoded form of `x`'s value — substituted
exactly once — and the literal pattern `\x7bx\x7d` occurs nowhere in the result.
The substitution loop is started on an arbitrary brace-free prefix, which
covers both the bare template and the Hawksoft-corrected
`"/integrations" ++ path` start. -/
theorem path_substitution (segs : List Seg) (args : List (String × JsValue))
    (x : String) (v : JsValue) (prefixChars : List Char)
    (hwf : wfT segs) (hnd : (args.map Prod.fst).Nodup)
    (hkeys : ∀ kv ∈ args, noBrace kv.1.toList)
    (hpre : ∀ c ∈ prefixChars, c ≠ lb)
    (hx : (x, v) ∈ args) (hxseg : Seg.param x ∈ segs) :
    substPathParams (renderT segs) args (prefixChars ++ renderT segs)
      = prefixChars ++ renderT (segs.map (substSeg args)) ∧
    substSeg args (.param x) = .lit (encodeURIComponent (jsString v)).toList ∧
    segs.count (.param x) = 1 ∧
    containsSub
      (substPathParams (renderT segs) args (prefixChars ++ renderT segs))
      (braceWrap x) = false := by
  have h1 := substPathParams_invariant segs hwf prefixChars hpre args []
    (by simpa using hnd) hkeys
  rw [substSeg_nil] at h1
  have hlook : lookupVal x args = some v := lookupVal_of_mem_nodup x v args hx hnd
  have hsub : substSeg args (.param x)
      = .lit (encodeURIComponent (jsString v)).toList := by
    simp [substSeg, hlook]
  have hcount : segs.count (.param x) = 1 := by
    obtain ⟨pre, post, hsplit, hkpre, hkpost⟩ :=
      mem_param_split segs x hxseg hwf.2
    rw [hsplit, List.count_append, List.count_cons_self,
      List.count_eq_zero.2 hkpre, List.count_eq_zero.2 hkpost]
  have hwf2 : ∀ s ∈ segs.map (substSeg args), segWf s := by
    intro s hs
    obtain ⟨s0, hs0, rfl⟩ := List.mem_map.1 hs
    cases s0 with
    | lit c => exact hwf.1 (.lit c) hs0
    | param n =>
      cases hl : lookupVal n args with
      | some v0 =>
        simp only [substSeg, hl]
        exact encodeURIComponent_noBrace (jsString v0)
      | none =>
        simp only [substSeg, hl]
        exact hwf.1 (.param n) hs0
  have hxnot : x ∉ paramNames (segs.map (substSeg args)) := by
    intro hc
    have hc2 := (paramNames_mem _ x).1 hc
    obtain ⟨s0, hs0, heq⟩ := List.mem_map.1 hc2
    cases s0 with
    | lit c => exact absurd heq (by simp [substSeg])
    | param n =>
      cases hl : lookupVal n args with
      | some v0 =>
        rw [show substSeg args (.param n)
          = .lit (encodeURIComponent (jsString v0)).toList by
            simp [substSeg, hl]] at heq
        exact absurd heq (by simp)
      | none =>
        rw [show substSeg args (.param n) = .param n by
          simp [substSeg, hl]] at heq
        injection heq with heqn
        rw [heqn] at hl
        rw [hl] at hlook
        exact absurd hlook (by simp)
  have hnoinf := braceWrap_not_infix (segs.map (substSeg args)) x hwf2 hxnot
    (hkeys (x, v) hx)
  have hfinal : containsSub
      (prefixChars ++ renderT (segs.map (substSeg args))) (braceWrap x)
      = false := by
    by_contra hc
    have hc2 : braceWrap x <:+:
        (prefixChars ++ renderT (segs.map (substSeg args))) :=
      (containsSub_iff _ _).1 (by simpa using hc)
    rw [show braceWrap x = lb :: (x.toList ++ [rb]) from rfl,
      infix_append_left_noLb prefixChars hpre] at hc2
    exact hnoinf hc2
  refine ⟨h1, hsub, hcount, ?_⟩
  rw [h1]
  exact hfinal

/-- C5 counterexample: for the template `/a/\x7bx\x7d/\x7bx\x7d` — which contains the
parameter segment `\x7bx\x7d` — supplying the valid value "v" for `x` leaves the
literal `\x7bx\x7d` in the final path, because `String.replace` with a string
pattern replaces only the first occurrence. -/
theorem duplicate_param_keeps_literal :
    substPathParams "/a/\x7bx\x7d/\x7bx\x7d".toList [("x", JsValue.vStr "v")]
        "/a/\x7bx\x7d/\x7bx\x7d".toList = "/a/v/\x7bx\x7d".toList ∧
    containsSub "/a/\x7bx\x7d/\x7bx\x7d".toList (braceWrap "x") = true ∧
    containsSub (substPathParams "/a/\x7bx\x7d/\x7bx\x7d".toList
        [("x", JsValue.vStr "v")] "/a/\x7bx\x7d/\x7bx\x7d".toList)
      (braceWrap "x") = true := by
  exact ⟨by decide, by decide, by decide⟩

/-- Witness for C5 at the concrete template `/a/\x7bx\x7d` and argument
`x := "v"`. -/
theorem path_substitution_witness :
    containsSub (substPathParams (renderT [Seg.lit "/a/".toList, Seg.param "x"])
        [("x", JsValue.vStr "v")]
        ([] ++ renderT [Seg.lit "/a/".toList, Seg.param "x"]))
      (braceWrap "x") = false :=
  (path_substitution [Seg.lit "/a/".toList, Seg.param "x"]
    [("x", JsValue.vStr "v")] "x" (JsValue.vStr "v") []
    (by decide) (by decide) (by decide) (by decide) (by decide)
    (by decide)).2.2.2
